import Mathlib

/-!
Verification development for the AnsiballZ module-payload assembly subsystem
(`ansible/executor/module_common.py`): the style classifier, the import
scanner (`ModuleDepFinder`), the dependency-closure builder
(`recursive_finder`), the zip layout (`_add_module_to_zip`), and the
cross-process build cache used by `_find_module_utils`.

The embedding is shallow: Python functions become Lean functions on explicit
data; the cross-process cache protocol becomes a small interleaving
transition system; dictionaries and sets become association lists and
duplicate-free lists (with Python's insertion-order iteration); bytes become
`List Nat`.
-/

namespace ModuleCommon

/-! ## The AnsiballZ build cache protocol (`_find_module_utils`, lines 1036-1131)

Each worker process executes, for one cache key `(module_name, compression)`:

1. if the cache file exists, read it (no lock) and finish;
2. otherwise acquire the per-module (or generic fallback) advisory lock;
3. under the lock, re-check existence; if still absent, build the zip data,
   write it to `<final>-part`, and `os.rename` the temp file onto the final
   path;
4. release the lock; if this process built nothing (`zipdata is None`), read
   the final path, and raise `AnsibleError` if the read fails.

The artifact bytes are abstracted as `Nat`; each process carries the value
its own build would produce (`buildVal`), so builds by different winners may
differ.  Writing the temp file is split into two steps (incomplete, then
complete) so that the atomicity of the final rename is a real statement:
the final path must never hold an incomplete value. -/

/-- Program counter of one worker inside the cache section of
`_find_module_utils`.  The straight-line code has no loops, so each
constructor is one program point. -/
inductive CachePC where
  /-- about to test `os.path.exists(cached_module_filename)` (line 1038). -/
  | checkCache
  /-- about to acquire the action-write lock (line 1055). -/
  | acquire
  /-- holding the lock, about to re-check existence (line 1059). -/
  | recheck
  /-- holding the lock, building the zip and starting to write `-part` (lines 1061-1112). -/
  | writePart
  /-- holding the lock, finishing the write of the `-part` file. -/
  | finishWrite
  /-- holding the lock, about to `os.rename` `-part` onto the final path (line 1118). -/
  | renamePart
  /-- leaving the `with lock:` block. -/
  | release
  /-- after the lock: `if zipdata is None:` read the final path (lines 1121-1131). -/
  | readAfter
  /-- returned `zipdata` equal to `v`. -/
  | done (v : Nat)
  /-- raised `AnsibleError` (line 1130): a different worker failed to create the file. -/
  | failed
deriving DecidableEq, Repr

/-- One worker process: its program counter, the bytes its own build would
produce, and the local `zipdata` variable. -/
structure CacheProc where
  pc : CachePC
  buildVal : Nat
  zipdata : Option Nat
deriving DecidableEq, Repr

/-- Shared filesystem + lock state together with all workers.  A file value
`(v, complete)` records the content and whether the write of that content
had finished (`os.rename` is atomic, plain writes are not). -/
structure CacheSys where
  cacheFile : Option (Nat × Bool)
  partFile : Option (Nat × Bool)
  lockHolder : Option Nat
  procs : List CacheProc
deriving DecidableEq, Repr

/-- Whether a program counter is inside the `with lock:` block. -/
def CachePC.insideLock : CachePC → Bool
  | .recheck | .writePart | .finishWrite | .renamePart | .release => true
  | _ => false

/-- Step process `i` once.  `none` means `i` has no enabled step: it is out
of range, finished, or blocked waiting for the lock. -/
def cacheStep (s : CacheSys) (i : Nat) : Option CacheSys :=
  match s.procs[i]? with
  | none => none
  | some p =>
    match p.pc with
    | .checkCache =>
      -- line 1038: `if os.path.exists(cached_module_filename):` read without locking
      match s.cacheFile with
      | some (v, _) => some { s with procs := s.procs.set i { p with pc := .done v } }
      | none => some { s with procs := s.procs.set i { p with pc := .acquire } }
    | .acquire =>
      -- line 1055: `with lock:` blocks until the lock is free
      match s.lockHolder with
      | none =>
        some { s with
          procs := s.procs.set i { p with pc := .recheck },
          lockHolder := some i }
      | some _ => none
    | .recheck =>
      -- line 1059: `if not os.path.exists(cached_module_filename):`
      if s.lockHolder = some i then
        match s.cacheFile with
        | none => some { s with procs := s.procs.set i { p with pc := .writePart } }
        | some _ => some { s with procs := s.procs.set i { p with pc := .release } }
      else none
    | .writePart =>
      -- lines 1061-1112: build `zipdata`, open `-part`, start writing
      if s.lockHolder = some i then
        some { s with
          procs := s.procs.set i { p with pc := .finishWrite, zipdata := some p.buildVal },
          partFile := some (p.buildVal, false) }
      else none
    | .finishWrite =>
      -- the write of the `-part` file completes
      if s.lockHolder = some i then
        some { s with
          procs := s.procs.set i { p with pc := .renamePart },
          partFile := some (p.buildVal, true) }
      else none
    | .renamePart =>
      -- line 1118: `os.rename(cached_module_filename + '-part', cached_module_filename)`
      if s.lockHolder = some i then
        match s.partFile with
        | some pv =>
          some { s with
            procs := s.procs.set i { p with pc := .release },
            cacheFile := some pv,
            partFile := none }
        | none => none
      else none
    | .release =>
      -- end of the `with lock:` block
      if s.lockHolder = some i then
        some { s with
          procs := s.procs.set i { p with pc := .readAfter },
          lockHolder := none }
      else none
    | .readAfter =>
      -- lines 1121-1131: `if zipdata is None:` read the file, else return
      match p.zipdata with
      | some v => some { s with procs := s.procs.set i { p with pc := .done v } }
      | none =>
        match s.cacheFile with
        | some (v, _) => some { s with procs := s.procs.set i { p with pc := .done v } }
        | none => some { s with procs := s.procs.set i { p with pc := .failed } }
    | .done _ => none
    | .failed => none

/-- Initial states: no one holds the lock, no temp file, every worker is at
the existence test with no `zipdata`, and the final path is either absent or
holds a previously completed artifact. -/
def CacheInit (s : CacheSys) : Prop :=
  s.lockHolder = none ∧ s.partFile = none ∧
  (s.cacheFile = none ∨ ∃ v, s.cacheFile = some (v, true)) ∧
  ∀ p ∈ s.procs, p.pc = .checkCache ∧ p.zipdata = none

/-- States reachable from an initial state by interleaving worker steps. -/
inductive CacheReachable : CacheSys → Prop where
  | init (s : CacheSys) (h : CacheInit s) : CacheReachable s
  | step (s s' : CacheSys) (i : Nat) (h : CacheReachable s)
      (hs : cacheStep s i = some s') : CacheReachable s'

/-- Per-process part of the inductive invariant: what must hold of the
shared state given the program counter of process `i`. -/
def ProcInv (s : CacheSys) (i : Nat) (p : CacheProc) : Prop :=
  match p.pc with
  | .checkCache | .acquire => p.zipdata = none
  | .recheck => s.lockHolder = some i ∧ p.zipdata = none
  | .writePart => s.lockHolder = some i ∧ p.zipdata = none ∧ s.cacheFile = none
  | .finishWrite => s.lockHolder = some i ∧ p.zipdata = some p.buildVal ∧
      s.cacheFile = none ∧ s.partFile = some (p.buildVal, false)
  | .renamePart => s.lockHolder = some i ∧ p.zipdata = some p.buildVal ∧
      s.cacheFile = none ∧ s.partFile = some (p.buildVal, true)
  | .release => s.lockHolder = some i ∧
      (∀ v, p.zipdata = some v → s.cacheFile = some (v, true))
  | .readAfter => ∀ v, p.zipdata = some v → s.cacheFile = some (v, true)
  | .done v => s.cacheFile = some (v, true)
  | .failed => True

/-- The inductive invariant of the cache protocol: the final path never holds
an incomplete artifact, and every process's local state agrees with the
shared state. -/
def CacheInv (s : CacheSys) : Prop :=
  (∀ x, s.cacheFile = some x → x.2 = true) ∧
  (∀ (j : Nat) (q : CacheProc), s.procs[j]? = some q → ProcInv s j q)

theorem cacheInit_inv {s : CacheSys} (h : CacheInit s) : CacheInv s := by
  obtain ⟨_hl, _hp, hc, hprocs⟩ := h
  constructor
  · rcases hc with h | ⟨v, h⟩ <;> intro x hx <;> simp_all
  · intro j q hjq
    have hq := hprocs q (List.getElem?_mem hjq)
    simp [ProcInv, hq.1, hq.2]

theorem procs_set_lookup {l : List CacheProc} {i : Nat} {p : CacheProc} (hp : l[i]? = some p)
    (p' : CacheProc) (j : Nat) :
    (l.set i p')[j]? = if i = j then some p' else l[j]? := by
  rcases eq_or_ne i j with rfl | hne
  · have hlt : i < l.length := by
      by_contra hge
      simp [List.getElem?_eq_none (Nat.le_of_not_lt hge)] at hp
    simp [List.getElem?_set_self hlt]
  · simp [List.getElem?_set_ne hne, hne]

theorem procInv_frame {s s' : CacheSys} {j : Nat} {q : CacheProc}
    (hl : s'.lockHolder = s.lockHolder) (hc : s'.cacheFile = s.cacheFile)
    (hpf : s'.partFile = s.partFile) (h : ProcInv s j q) : ProcInv s' j q := by
  obtain ⟨qpc, qbv, qzd⟩ := q
  cases qpc <;> simp_all [ProcInv]

theorem procInv_of_not_holder {s s' : CacheSys} {j : Nat} {q : CacheProc}
    (h : ProcInv s j q) (hnh : ¬ s.lockHolder = some j)
    (hc : s'.cacheFile = s.cacheFile) : ProcInv s' j q := by
  obtain ⟨qpc, qbv, qzd⟩ := q
  cases qpc <;> simp_all [ProcInv]

theorem procInv_of_published {s s' : CacheSys} {j : Nat} {q : CacheProc}
    (h : ProcInv s j q) (hnh : ¬ s.lockHolder = some j)
    (hcf : s.cacheFile = none) : ProcInv s' j q := by
  obtain ⟨qpc, qbv, qzd⟩ := q
  cases qpc <;> simp_all [ProcInv]

theorem cacheStep_inv {s s' : CacheSys} {i : Nat} (hinv : CacheInv s)
    (hs : cacheStep s i = some s') : CacheInv s' := by
  obtain ⟨inv1, inv2⟩ := hinv
  unfold cacheStep at hs
  split at hs
  · exact absurd hs (by simp)
  · rename_i p hp
    have hpinv := inv2 i p hp
    obtain ⟨pc, bv, zd⟩ := p
    cases pc <;> simp only [ProcInv] at hpinv <;> dsimp only at hs
    case checkCache =>
      split at hs
      -- cache file present: read it without the lock
      · rename_i v b hcf
        injection hs with hs; subst hs
        refine ⟨inv1, ?_⟩
        intro j q hjq
        rw [procs_set_lookup hp] at hjq
        split at hjq
        · rename_i hij; subst hij; cases hjq
          have hb : b = true := inv1 _ hcf
          show s.cacheFile = some (v, true)
          rw [hcf, hb]
        · exact procInv_frame rfl rfl rfl (inv2 j q hjq)
      -- cache file absent: go acquire the lock
      · injection hs with hs; subst hs
        refine ⟨inv1, ?_⟩
        intro j q hjq
        rw [procs_set_lookup hp] at hjq
        split at hjq
        · rename_i hij; subst hij; cases hjq
          exact hpinv
        · exact procInv_frame rfl rfl rfl (inv2 j q hjq)
    case acquire =>
      split at hs
      · rename_i hlk
        injection hs with hs; subst hs
        refine ⟨inv1, ?_⟩
        intro j q hjq
        rw [procs_set_lookup hp] at hjq
        split at hjq
        · rename_i hij; subst hij; cases hjq
          exact ⟨rfl, hpinv⟩
        · rename_i hne
          refine procInv_of_not_holder (inv2 j q hjq) ?_ rfl
          rw [hlk]
          simp
      · exact absurd hs (by simp)
    case recheck =>
      obtain ⟨hlk, hzd⟩ := hpinv
      split at hs
      · split at hs
        -- still absent: go build
        · rename_i hcf
          injection hs with hs; subst hs
          refine ⟨inv1, ?_⟩
          intro j q hjq
          rw [procs_set_lookup hp] at hjq
          split at hjq
          · rename_i hij; subst hij; cases hjq
            exact ⟨hlk, hzd, hcf⟩
          · exact procInv_frame rfl rfl rfl (inv2 j q hjq)
        -- appeared while waiting: skip the build
        · rename_i hcf
          injection hs with hs; subst hs
          refine ⟨inv1, ?_⟩
          intro j q hjq
          rw [procs_set_lookup hp] at hjq
          split at hjq
          · rename_i hij; subst hij; cases hjq
            exact ⟨hlk, fun v hv => absurd (hzd ▸ hv) (by simp)⟩
          · exact procInv_frame rfl rfl rfl (inv2 j q hjq)
      · rename_i hng
        exact absurd hlk hng
    case writePart =>
      obtain ⟨hlk, hzd, hcf⟩ := hpinv
      split at hs
      · injection hs with hs; subst hs
        refine ⟨fun x hx => inv1 x hx, ?_⟩
        intro j q hjq
        rw [procs_set_lookup hp] at hjq
        split at hjq
        · rename_i hij; subst hij; cases hjq
          exact ⟨hlk, rfl, hcf, rfl⟩
        · rename_i hne
          refine procInv_of_not_holder (inv2 j q hjq) ?_ rfl
          rw [hlk]
          exact fun hj => hne (Option.some_inj.mp hj)
      · rename_i hng
        exact absurd hlk hng
    case finishWrite =>
      obtain ⟨hlk, hzd, hcf, hpf⟩ := hpinv
      split at hs
      · injection hs with hs; subst hs
        refine ⟨fun x hx => inv1 x hx, ?_⟩
        intro j q hjq
        rw [procs_set_lookup hp] at hjq
        split at hjq
        · rename_i hij; subst hij; cases hjq
          exact ⟨hlk, hzd, hcf, rfl⟩
        · rename_i hne
          refine procInv_of_not_holder (inv2 j q hjq) ?_ rfl
          rw [hlk]
          exact fun hj => hne (Option.some_inj.mp hj)
      · rename_i hng
        exact absurd hlk hng
    case renamePart =>
      obtain ⟨hlk, hzd, hcf, hpf⟩ := hpinv
      split at hs
      · split at hs
        · rename_i pv hpfg
          injection hs with hs; subst hs
          have hpv : pv = (bv, true) := Option.some_inj.mp (hpfg.symm.trans hpf)
          subst hpv
          refine ⟨?_, ?_⟩
          · intro x hx
            cases hx
            rfl
          · intro j q hjq
            rw [procs_set_lookup hp] at hjq
            split at hjq
            · rename_i hij; subst hij; cases hjq
              refine ⟨hlk, ?_⟩
              intro v hv
              rw [hzd] at hv
              cases hv
              rfl
            · rename_i hne
              refine procInv_of_published (inv2 j q hjq) ?_ hcf
              rw [hlk]
              exact fun hj => hne (Option.some_inj.mp hj)
        · rename_i hnone
          rw [hnone] at hpf
          exact Option.noConfusion hpf
      · rename_i hng
        exact absurd hlk hng
    case release =>
      obtain ⟨hlk, hcv⟩ := hpinv
      split at hs
      · injection hs with hs; subst hs
        refine ⟨inv1, ?_⟩
        intro j q hjq
        rw [procs_set_lookup hp] at hjq
        split at hjq
        · rename_i hij; subst hij; cases hjq
          exact hcv
        · rename_i hne
          refine procInv_of_not_holder (inv2 j q hjq) ?_ rfl
          rw [hlk]
          exact fun hj => hne (Option.some_inj.mp hj)
      · rename_i hng
        exact absurd hlk hng
    case readAfter =>
      split at hs
      -- zipdata present: this process built; return it
      · rename_i v
        injection hs with hs; subst hs
        refine ⟨inv1, ?_⟩
        intro j q hjq
        rw [procs_set_lookup hp] at hjq
        split at hjq
        · rename_i hij; subst hij; cases hjq
          exact hpinv v rfl
        · exact procInv_frame rfl rfl rfl (inv2 j q hjq)
      · split at hs
        -- another process published: read its result
        · rename_i v c hcf
          injection hs with hs; subst hs
          refine ⟨inv1, ?_⟩
          intro j q hjq
          rw [procs_set_lookup hp] at hjq
          split at hjq
          · rename_i hij; subst hij; cases hjq
            have hc : c = true := inv1 _ hcf
            show s.cacheFile = some (v, true)
            rw [hcf, hc]
          · exact procInv_frame rfl rfl rfl (inv2 j q hjq)
        -- still missing after the lock: AnsibleError
        · injection hs with hs; subst hs
          refine ⟨inv1, ?_⟩
          intro j q hjq
          rw [procs_set_lookup hp] at hjq
          split at hjq
          · rename_i hij; subst hij; cases hjq
            trivial
          · exact procInv_frame rfl rfl rfl (inv2 j q hjq)
    case done v => exact absurd hs (by simp)
    case failed => exact absurd hs (by simp)

theorem cacheReachable_inv {s : CacheSys} (h : CacheReachable s) : CacheInv s := by
  induction h with
  | init s h => exact cacheInit_inv h
  | step s s' i h hs ih => exact cacheStep_inv ih hs

theorem cacheStep_publish_stable {s s' : CacheSys} {i : Nat} (hinv : CacheInv s)
    (hs : cacheStep s i = some s') {x : Nat × Bool} (hx : s.cacheFile = some x) :
    s'.cacheFile = some x := by
  obtain ⟨inv1, inv2⟩ := hinv
  unfold cacheStep at hs
  split at hs
  · exact absurd hs (by simp)
  · rename_i p hp
    have hpinv := inv2 i p hp
    obtain ⟨pc, bv, zd⟩ := p
    cases pc <;> simp only [ProcInv] at hpinv <;> dsimp only at hs
    case checkCache =>
      split at hs <;> (injection hs with hs; subst hs; exact hx)
    case acquire =>
      split at hs
      · injection hs with hs; subst hs; exact hx
      · exact absurd hs (by simp)
    case recheck =>
      obtain ⟨hlk, hzd⟩ := hpinv
      split at hs
      · split at hs <;> (injection hs with hs; subst hs; exact hx)
      · rename_i hng
        exact absurd hlk hng
    case writePart =>
      obtain ⟨hlk, hzd, hcf⟩ := hpinv
      split at hs
      · injection hs with hs; subst hs; exact hx
      · rename_i hng
        exact absurd hlk hng
    case finishWrite =>
      obtain ⟨hlk, hzd, hcf, hpf⟩ := hpinv
      split at hs
      · injection hs with hs; subst hs; exact hx
      · rename_i hng
        exact absurd hlk hng
    case renamePart =>
      obtain ⟨hlk, hzd, hcf, hpf⟩ := hpinv
      rw [hcf] at hx
      exact Option.noConfusion hx
    case release =>
      obtain ⟨hlk, hcv⟩ := hpinv
      split at hs
      · injection hs with hs; subst hs; exact hx
      · rename_i hng
        exact absurd hlk hng
    case readAfter =>
      split at hs
      · injection hs with hs; subst hs; exact hx
      · split at hs <;> (injection hs with hs; subst hs; exact hx)
    case done v => exact absurd hs (by simp)
    case failed => exact absurd hs (by simp)

/-- C1: in every state reachable by the cache protocol of `_find_module_utils`
(read the final path without a lock when it exists; otherwise take the
per-module or generic lock, re-check existence under it, build only if still
absent, write to the `-part` temp path and rename onto the final path):
(a) the final cache path is always either absent or holds a completely
written artifact — a partially written artifact is never visible under it;
(b) every builder that completes returns the same bytes; and
(c) once an artifact is published under the final path, no step of any
builder ever replaces or removes it, so at most one artifact is ever
published per cache key. -/
theorem cache_protocol_at_most_one_publish {s : CacheSys} (h : CacheReachable s) :
    (s.cacheFile = none ∨ ∃ v, s.cacheFile = some (v, true)) ∧
    (∀ (i j : Nat) (p q : CacheProc) (vi vj : Nat),
      s.procs[i]? = some p → s.procs[j]? = some q →
      p.pc = .done vi → q.pc = .done vj → vi = vj) ∧
    (∀ (i : Nat) (s' : CacheSys) (x : Nat × Bool),
      cacheStep s i = some s' → s.cacheFile = some x → s'.cacheFile = some x) := by
  have hinv := cacheReachable_inv h
  obtain ⟨inv1, inv2⟩ := hinv
  refine ⟨?_, ?_, ?_⟩
  · cases hx : s.cacheFile with
    | none => exact Or.inl rfl
    | some x =>
      obtain ⟨v, b⟩ := x
      have hb : b = true := inv1 _ hx
      exact Or.inr ⟨v, by rw [hb]⟩
  · intro i j p q vi vj hip hjq hpi hqj
    have h1 := inv2 i p hip
    have h2 := inv2 j q hjq
    unfold ProcInv at h1 h2
    rw [hpi] at h1
    rw [hqj] at h2
    have e1 : s.cacheFile = some (vi, true) := h1
    have e2 : s.cacheFile = some (vj, true) := h2
    rw [e1] at e2
    exact (Prod.ext_iff.mp (Option.some_inj.mp e2)).1
  · intro i s' x hstep hx
    exact cacheStep_publish_stable ⟨inv1, inv2⟩ hstep hx

/-- A concrete two-worker initial state used to witness the C1 theorem. -/
def cacheWitnessSys : CacheSys :=
  { cacheFile := none, partFile := none, lockHolder := none,
    procs := [{ pc := .checkCache, buildVal := 7, zipdata := none },
              { pc := .checkCache, buildVal := 9, zipdata := none }] }

theorem cache_protocol_at_most_one_publish_witness :
    (cacheWitnessSys.cacheFile = none ∨ ∃ v, cacheWitnessSys.cacheFile = some (v, true)) ∧
    (∀ (i j : Nat) (p q : CacheProc) (vi vj : Nat),
      cacheWitnessSys.procs[i]? = some p → cacheWitnessSys.procs[j]? = some q →
      p.pc = .done vi → q.pc = .done vj → vi = vj) ∧
    (∀ (i : Nat) (s' : CacheSys) (x : Nat × Bool),
      cacheStep cacheWitnessSys i = some s' →
      cacheWitnessSys.cacheFile = some x → s'.cacheFile = some x) :=
  cache_protocol_at_most_one_publish
    (CacheReachable.init cacheWitnessSys ⟨rfl, rfl, Or.inl rfl, by decide⟩)

/-- C7: if, after the lock has been released, a worker that built nothing
itself (`zipdata is None`) finds the cached artifact still missing from the
final path, the step taken is exactly the `AnsibleError` raise (the process
moves to `failed` changing nothing else — no rebuild, no write), and a
failed process takes no further step. -/
theorem cache_missing_after_lock_fatal {s : CacheSys} {i : Nat} {p : CacheProc}
    (hp : s.procs[i]? = some p) (hpc : p.pc = .readAfter)
    (hzd : p.zipdata = none) (hcf : s.cacheFile = none) :
    cacheStep s i = some { s with procs := s.procs.set i { p with pc := .failed } } ∧
    cacheStep { s with procs := s.procs.set i { p with pc := .failed } } i = none := by
  constructor
  · simp [cacheStep, hp, hpc, hzd, hcf]
  · have hset : (s.procs.set i { p with pc := .failed })[i]? =
        some { p with pc := .failed } := by
      rw [procs_set_lookup hp]
      simp
    simp [cacheStep, hset]

/-- A concrete state used to witness the C7 theorem: one worker that lost the
race sits after the lock with no `zipdata`, and the cache file is gone. -/
def cacheWitnessSys7 : CacheSys :=
  { cacheFile := none, partFile := none, lockHolder := none,
    procs := [{ pc := .readAfter, buildVal := 5, zipdata := none }] }

theorem cache_missing_after_lock_fatal_witness :
    cacheStep cacheWitnessSys7 0 =
      some { cacheWitnessSys7 with
        procs := cacheWitnessSys7.procs.set 0
          { pc := .failed, buildVal := 5, zipdata := none } } ∧
    cacheStep { cacheWitnessSys7 with
        procs := cacheWitnessSys7.procs.set 0
          { pc := .failed, buildVal := 5, zipdata := none } } 0 = none :=
  cache_missing_after_lock_fatal (p := { pc := .readAfter, buildVal := 5, zipdata := none })
    rfl rfl rfl rfl

/-! ## Python string primitives

The scanner and resolver work on Python strings.  The Lean `String` library
implements `splitOn`/`startsWith` by well-founded recursion, which the kernel
cannot evaluate, so the Python string operations used by the source are
implemented here structurally over `String.data`. -/

/-- `str.split(sep)` for a one-character separator, on the character list.
Python semantics: splitting the empty string yields `[""]`. -/
def splitChar (sep : Char) : List Char → List (List Char)
  | [] => [[]]
  | c :: rest =>
    match splitChar sep rest with
    | h :: t => if c = sep then [] :: h :: t else (c :: h) :: t
    | [] => [[c]]

/-- Python `s.split('.')`. -/
def pySplitDot (s : String) : List String :=
  (splitChar '.' s.data).map String.mk

/-- Python `s.startswith(pre)`. -/
def pyStartsWith (s pre : String) : Bool :=
  pre.data.isPrefixOf s.data

/-- Python `s.endswith(suf)`. -/
def pyEndsWith (s suf : String) : Bool :=
  suf.data.isSuffixOf s.data

/-- Python `pat in s` (substring containment). -/
def pyContains (s pat : String) : Bool :=
  s.data.tails.any (fun t => pat.data.isPrefixOf t)

/-- Python `'.'.join(parts)`. -/
def pyJoinDot (l : List String) : String :=
  String.intercalate "." l

/-! ## ModuleDepFinder (`module_common.py` lines 443-542)

`ModuleDepFinder` is an `ast.NodeVisitor`; the source of a module is
abstracted to the list of its import statements (the only node kinds the
visitor handles), in program order. -/

/-- One import statement of a module source: `import a.b.c, d.e` or
`from <dots><mod> import n1, n2` (`mod = none` for a bare `from . import x`;
`level` is the number of leading dots, `0` for an absolute import). -/
inductive Stmt where
  | imp (names : List String)
  | impFrom (level : Nat) (mod : Option String) (names : List String)
deriving DecidableEq, Repr

/-- A parsed module source, abstracted to its import statements. -/
abbrev Src := List Stmt

/-- The scanner can crash with `AttributeError` when `node_module` is `None`
(a relative import with no module part scanned with an empty
`module_fqn` falls through to `node_module.startswith(...)` at line 519). -/
inductive ScanErr where
  | attributeError
deriving DecidableEq, Repr

/-- `ModuleDepFinder.visit_Import` (lines 470-482): record each dotted name
rooted at `ansible.module_utils.` or `ansible_collections.`. -/
def visit_Import (names : List String) : List (List String) :=
  names.filterMap (fun nm =>
    if pyStartsWith nm "ansible.module_utils." || pyStartsWith nm "ansible_collections." then
      some (pySplitDot nm)
    else none)

/-- `ModuleDepFinder.visit_ImportFrom` (lines 484-542): compute `node_module`
(rewriting a relative import of level `L` against `module_fqn` when the
latter is non-empty, falling back to the absolute module path when it is
empty), then record one tuple per imported name when `node_module` is rooted
at a recognized namespace; `_six` as the first imported name is special-cased
to the one-segment tuple `('_six',)`.  Returns the list of recorded tuples in
order. -/
def visit_ImportFrom (module_fqn : String) (level : Nat) (mod : Option String)
    (names : List String) : Except ScanErr (List (List String)) :=
  -- lines 498-512
  let node_module : Option String :=
    if level > 0 then
      if module_fqn ≠ "" then
        let parts := pySplitDot module_fqn
        match mod with
        | some m => some (pyJoinDot (parts.take (parts.length - level) ++ [m]))
        | none => some (pyJoinDot (parts.take (parts.length - level)))
      else mod
    else mod
  -- lines 514-540
  if names.head? = some "_six" then
    Except.ok [["_six"]]
  else
    match node_module with
    | none => Except.error ScanErr.attributeError
    | some nm =>
      if pyStartsWith nm "ansible.module_utils" then
        Except.ok (names.map (fun a => pySplitDot nm ++ [a]))
      else if pyStartsWith nm "ansible_collections." &&
          (pyEndsWith nm "plugins.module_utils" || pyContains nm ".plugins.module_utils.") then
        Except.ok (names.map (fun a => pySplitDot nm ++ [a]))
      else
        Except.ok []

/-- Add to a set represented as a duplicate-free list in insertion order. -/
def insertName (acc : List (List String)) (n : List String) : List (List String) :=
  if n ∈ acc then acc else acc ++ [n]

/-- Run `ModuleDepFinder` over a source: visit each import statement in
order, accumulating `self.submodules` (a set, modelled in insertion order). -/
def moduleDepFinderRun (module_fqn : String) :
    List (List String) → Src → Except ScanErr (List (List String))
  | acc, [] => Except.ok acc
  | acc, stmt :: rest =>
    match stmt with
    | .imp names =>
      moduleDepFinderRun module_fqn ((visit_Import names).foldl insertName acc) rest
    | .impFrom lvl mod names =>
      match visit_ImportFrom module_fqn lvl mod names with
      | .error e => Except.error e
      | .ok adds => moduleDepFinderRun module_fqn (adds.foldl insertName acc) rest

/-- The absolute-path dispatch of `visit_ImportFrom` on a computed
`node_module` path (lines 519-540): the recorded tuples for each imported
name when the path is rooted at a recognized namespace. -/
def absImportDispatch (nm : String) (names : List String) : List (List String) :=
  if pyStartsWith nm "ansible.module_utils" then
    names.map (fun a => pySplitDot nm ++ [a])
  else if pyStartsWith nm "ansible_collections." &&
      (pyEndsWith nm "plugins.module_utils" || pyContains nm ".plugins.module_utils.") then
    names.map (fun a => pySplitDot nm ++ [a])
  else
    []

theorem iterate_dropLast_eq_take {α : Type} (n : Nat) (l : List α) :
    List.dropLast^[n] l = l.take (l.length - n) := by
  induction n generalizing l with
  | zero => simp
  | succ n ih =>
    rw [Function.iterate_succ_apply, ih, List.length_dropLast, List.dropLast_eq_take,
      List.take_take]
    congr 1
    omega

/-- C6 counterexample: a relative import (`level = 2`) scanned with an empty
self identity does not fall in the "records no dependency" case claimed: the
scanner falls back to treating the module path as absolute (line 509), and
since `ansible.module_utils.basic` carries a recognized prefix it records a
dependency, contradicting the claim that any relative import scanned with an
empty self identity records nothing. -/
theorem visit_ImportFrom_empty_identity_records :
    ¬ (visit_ImportFrom "" 2 (some "ansible.module_utils.basic") ["AnsibleModule"] =
        Except.ok []) := by
  have hres : visit_ImportFrom "" 2 (some "ansible.module_utils.basic") ["AnsibleModule"] =
      Except.ok [["ansible", "module_utils", "basic", "AnsibleModule"]] := by rfl
  rw [hres]
  intro h
  injection h with h
  exact List.cons_ne_nil _ _ h

/-- C6 (amended): for a from-import whose first imported name is not the
special-cased `_six`:
(i) with a non-empty self identity, a relative import of level `L` with a
module part `m` is rewritten by dropping the last `L` segments of the self
identity and appending `m`, and the recorded dependencies are the
absolute-path dispatch of that rewritten path;
(ii) a from-import with zero leading dots whose path has no recognized
prefix records no dependency and raises no error;
(iii) a relative import scanned with an empty self identity falls back to
the absolute interpretation of its module path (instead of being skipped). -/
theorem visit_ImportFrom_rewrite_and_skip (module_fqn : String) (level : Nat)
    (mod : Option String) (names : List String) :
    (∀ m : String, module_fqn ≠ "" → 0 < level → names.head? ≠ some "_six" →
      visit_ImportFrom module_fqn level (some m) names =
        Except.ok (absImportDispatch
          (pyJoinDot (List.dropLast^[level] (pySplitDot module_fqn) ++ [m])) names)) ∧
    (∀ m : String, names.head? ≠ some "_six" →
      pyStartsWith m "ansible.module_utils" = false →
      (pyStartsWith m "ansible_collections." &&
        (pyEndsWith m "plugins.module_utils" ||
          pyContains m ".plugins.module_utils.")) = false →
      visit_ImportFrom module_fqn 0 (some m) names = Except.ok []) ∧
    (module_fqn = "" →
      visit_ImportFrom module_fqn level mod names =
        visit_ImportFrom module_fqn 0 mod names) := by
  refine ⟨?_, ?_, ?_⟩
  · intro m h1 h2 h3
    rw [iterate_dropLast_eq_take]
    simp only [visit_ImportFrom, absImportDispatch, if_pos h2, if_pos h1, if_neg h3]
    split_ifs <;> rfl
  · intro m h3 ha hb
    simp [visit_ImportFrom, h3, ha, hb]
  · intro h1
    subst h1
    simp [visit_ImportFrom]

theorem visit_ImportFrom_rewrite_and_skip_witness :
    (visit_ImportFrom "ansible.modules.system.ping" 2 (some "module_utils.basic")
        ["AnsibleModule"] =
      Except.ok (absImportDispatch
        (pyJoinDot (List.dropLast^[2] (pySplitDot "ansible.modules.system.ping") ++
          ["module_utils.basic"])) ["AnsibleModule"])) ∧
    (visit_ImportFrom "ansible.modules.system.ping" 0 (some "os.path") ["join"] =
      Except.ok []) ∧
    (visit_ImportFrom "" 1 none ["helper"] = visit_ImportFrom "" 0 none ["helper"]) := by
  refine ⟨?_, ?_, ?_⟩
  · exact (visit_ImportFrom_rewrite_and_skip "ansible.modules.system.ping" 2
      none ["AnsibleModule"]).1 "module_utils.basic" (by decide) (by decide) (by decide)
  · exact (visit_ImportFrom_rewrite_and_skip "ansible.modules.system.ping" 0
      none ["join"]).2.1 "os.path" (by decide) (by decide) (by decide)
  · exact (visit_ImportFrom_rewrite_and_skip "" 1 none ["helper"]).2.2 rfl

/-! ## Style sniffing (`_find_module_utils`, lines 964-1004)

Module sources are raw bytes here (`List Nat`); the markers are the byte
strings of lines 71-76 and the modern-import regular expression of lines
431-440 is implemented as an explicit matcher over the same five
alternatives. -/

/-- Bytes of an ASCII string literal. -/
def bytesOf (s : String) : List Nat :=
  s.data.map Char.toNat

def REPLACER : List Nat := bytesOf "#<<INCLUDE_ANSIBLE_MODULE_COMMON>>"

def REPLACER_VERSION : List Nat := bytesOf "\"<<ANSIBLE_VERSION>>\""

def REPLACER_COMPLEX : List Nat := bytesOf "\"<<INCLUDE_ANSIBLE_MODULE_COMPLEX_ARGS>>\""

def REPLACER_WINDOWS : List Nat := bytesOf "# POWERSHELL_COMMON"

def REPLACER_JSONARGS : List Nat := bytesOf "<<INCLUDE_ANSIBLE_MODULE_JSON_ARGS>>"

def REPLACER_SELINUX : List Nat := bytesOf "<<SELINUX_SPECIAL_FILESYSTEMS>>"

/-- The byte whitelist of `_is_binary` (line 892): bell, backspace, tab,
newline, form feed, carriage return, escape, and `0x20..0xff` minus `0x7f`. -/
def textchar (b : Nat) : Bool :=
  b = 7 || b = 8 || b = 9 || b = 10 || b = 12 || b = 13 || b = 27 ||
    (0x20 ≤ b && b < 0x100 && !(b = 0x7f))

/-- `_is_binary` (lines 891-894): some byte of the first 1KB falls outside
the text whitelist. -/
def isBinaryData (b_module_data : List Nat) : Bool :=
  (b_module_data.take 1024).any (fun b => !(textchar b))

/-- Python `pat in data` over bytes. -/
def bytesContains (data pat : List Nat) : Bool :=
  data.tails.any (fun t => pat.isPrefixOf t)

/-- Python `data.replace(pat, rep)` for a non-empty pattern (all
non-overlapping occurrences, left to right).  `fuel` is called with the
input length and only drives structural recursion. -/
def bytesReplaceGo (pat rep : List Nat) : Nat → List Nat → List Nat
  | _, [] => []
  | 0, l => l
  | fuel + 1, c :: rest =>
    if pat.isPrefixOf (c :: rest) then
      rep ++ bytesReplaceGo pat rep fuel ((c :: rest).drop pat.length)
    else
      c :: bytesReplaceGo pat rep fuel rest

/-- Python `data.replace(pat, rep)` (the patterns used are never empty). -/
def bytesReplace (data pat rep : List Nat) : List Nat :=
  match pat with
  | [] => data
  | _ :: _ => bytesReplaceGo pat rep data.length data

/-- One token of a regex alternative: a literal, `c+`, `c*`, or `c{2,}`. -/
inductive RTok where
  | lit (s : List Nat)
  | plus (p : Nat → Bool)
  | star (p : Nat → Bool)
  | rep2 (p : Nat → Bool)

/-- Does some prefix of `input` match the token sequence (`re.search`
anchored at one start position)?  `fuel` only drives structural recursion
and is chosen large enough by `reSearchAlts`. -/
def tokMatch : Nat → List RTok → List Nat → Bool
  | 0, _, _ => false
  | _ + 1, [], _ => true
  | fuel + 1, .lit s :: ts, input =>
    s.isPrefixOf input && tokMatch fuel ts (input.drop s.length)
  | fuel + 1, .plus p :: ts, input =>
    match input with
    | [] => false
    | c :: rest => p c && tokMatch fuel (.star p :: ts) rest
  | fuel + 1, .star p :: ts, input =>
    tokMatch fuel ts input ||
      (match input with
       | [] => false
       | c :: rest => p c && tokMatch fuel (.star p :: ts) rest)
  | fuel + 1, .rep2 p :: ts, input =>
    match input with
    | c1 :: c2 :: rest => p c1 && p c2 && tokMatch fuel (.star p :: ts) rest
    | _ => false

/-- `re.search` over a list of alternatives: some suffix start matches. -/
def reSearchAlts (alts : List (List RTok)) (data : List Nat) : Bool :=
  data.tails.any (fun suffx =>
    alts.any (fun a => tokMatch (suffx.length + a.length + 1) a suffx))

/-- `' '` -/
def isSpaceByte (b : Nat) : Bool := b = 32

/-- `'.'` (the dot character in `\.{2,}`). -/
def isDotByte (b : Nat) : Bool := b = 46

/-- `.` in a bytes regex without DOTALL: any byte except newline. -/
def notNl (b : Nat) : Bool := !(b = 10)

/-- `[^.]`: any byte except a literal dot (newline included). -/
def notDot (b : Nat) : Bool := !(b = 46)

/-- `NEW_STYLE_PYTHON_MODULE_RE` (lines 431-440), alternative by
alternative:
`from +\.{2,} *module_utils.* +import `,
`from +ansible_collections\.[^.]+\.[^.]+\.plugins\.module_utils.* +import `,
`import +ansible_collections\.[^.]+\.[^.]+\.plugins\.module_utils.*`,
`from +ansible\.module_utils.* +import `,
`import +ansible\.module_utils\.`. -/
def NEW_STYLE_PYTHON_MODULE_RE : List (List RTok) :=
  [[.lit (bytesOf "from"), .plus isSpaceByte, .rep2 isDotByte, .star isSpaceByte,
    .lit (bytesOf "module_utils"), .star notNl, .plus isSpaceByte, .lit (bytesOf "import ")],
   [.lit (bytesOf "from"), .plus isSpaceByte, .lit (bytesOf "ansible_collections."),
    .plus notDot, .lit (bytesOf "."), .plus notDot, .lit (bytesOf ".plugins.module_utils"),
    .star notNl, .plus isSpaceByte, .lit (bytesOf "import ")],
   [.lit (bytesOf "import"), .plus isSpaceByte, .lit (bytesOf "ansible_collections."),
    .plus notDot, .lit (bytesOf "."), .plus notDot, .lit (bytesOf ".plugins.module_utils"),
    .star notNl],
   [.lit (bytesOf "from"), .plus isSpaceByte, .lit (bytesOf "ansible.module_utils"),
    .star notNl, .plus isSpaceByte, .lit (bytesOf "import ")],
   [.lit (bytesOf "import"), .plus isSpaceByte, .lit (bytesOf "ansible.module_utils.")]]

/-- `NEW_STYLE_PYTHON_MODULE_RE.search(b_module_data)` (line 980). -/
def newStyleSearch (data : List Nat) : Bool :=
  reSearchAlts NEW_STYLE_PYTHON_MODULE_RE data

/-- Lowercase one ASCII byte (for `re.IGNORECASE` literal searches). -/
def lowerByte (b : Nat) : Nat :=
  if 65 ≤ b && b ≤ 90 then b + 32 else b

/-- Case-insensitive literal search (`re.search(lit, data, re.IGNORECASE)`). -/
def bytesContainsCI (data pat : List Nat) : Bool :=
  bytesContains (data.map lowerByte) (pat.map lowerByte)

/-- The five `#Requires`-style searches of lines 987-991. -/
def psRequiresSearch (data : List Nat) : Bool :=
  bytesContainsCI data (bytesOf "#Requires -Module") ||
  bytesContainsCI data (bytesOf "#Requires -Version") ||
  bytesContainsCI data (bytesOf "#AnsibleRequires -OSVersion") ||
  bytesContainsCI data (bytesOf "#AnsibleRequires -Powershell") ||
  bytesContainsCI data (bytesOf "#AnsibleRequires -CSharpUtil")

/-- Result of the style sniffing: the (possibly marker-substituted) data and
the `module_style` / `module_substyle` strings. -/
structure ClassifyResult where
  data : List Nat
  module_style : String
  module_substyle : String
deriving DecidableEq, Repr

/-- The classification chain of `_find_module_utils` (lines 964-998), in
source order: binary sniff, `REPLACER` substitution, modern-import regex,
`REPLACER_WINDOWS` substitution, `#Requires` headers, `REPLACER_JSONARGS`,
`WANT_JSON`, default `old`. -/
def classifyModule (b_module_data : List Nat) : ClassifyResult :=
  if isBinaryData b_module_data then
    ⟨b_module_data, "binary", "binary"⟩
  else if bytesContains b_module_data REPLACER then
    ⟨bytesReplace b_module_data REPLACER (bytesOf "from ansible.module_utils.basic import *"),
      "new", "python"⟩
  else if newStyleSearch b_module_data then
    ⟨b_module_data, "new", "python"⟩
  else if bytesContains b_module_data REPLACER_WINDOWS then
    ⟨bytesReplace b_module_data REPLACER_WINDOWS
        (bytesOf "#Requires -Module Ansible.ModuleUtils.Legacy"), "new", "powershell"⟩
  else if psRequiresSearch b_module_data then
    ⟨b_module_data, "new", "powershell"⟩
  else if bytesContains b_module_data REPLACER_JSONARGS then
    ⟨b_module_data, "new", "jsonargs"⟩
  else if bytesContains b_module_data (bytesOf "WANT_JSON") then
    ⟨b_module_data, "non_native_want_json", "non_native_want_json"⟩
  else
    ⟨b_module_data, "old", "old"⟩

/-- Lines 1001-1004: the styles returned unchanged, before the AnsiballZ
pipeline runs (`if module_style in ('old', 'non_native_want_json',
'binary'): return`). -/
def earlyReturnStyle (style : String) : Bool :=
  style = "old" || style = "non_native_want_json" || style = "binary"

/-- C4: a non-binary source containing both the legacy `WANT_JSON` fallback
marker and a match of the modern helper-namespace import regex classifies as
the modern closure-packed style (`module_style = 'new'`,
`module_substyle = 'python'`): the modern patterns (`REPLACER` or the import
regex) are tested before the `WANT_JSON` marker in the first-match-wins
chain. -/
theorem classify_modern_beats_want_json (b : List Nat)
    (hbin : isBinaryData b = false)
    (_hwj : bytesContains b (bytesOf "WANT_JSON") = true)
    (hmod : newStyleSearch b = true) :
    (classifyModule b).module_style = "new" ∧
    (classifyModule b).module_substyle = "python" := by
  unfold classifyModule
  cases hr : bytesContains b REPLACER <;> simp [hbin, hr, hmod]

/-- Concrete source for the C4 witness: contains `WANT_JSON` and a modern
`from ansible.module_utils... import` line. -/
def c4Data : List Nat :=
  bytesOf "# WANT_JSON\nfrom ansible.module_utils.basic import AnsibleModule\n"

theorem classify_modern_beats_want_json_witness :
    (classifyModule c4Data).module_style = "new" ∧
    (classifyModule c4Data).module_substyle = "python" :=
  classify_modern_beats_want_json c4Data (by decide) (by decide) (by decide)

/-- Concrete source for the C5 counterexample: contains the
`#<<INCLUDE_ANSIBLE_MODULE_COMMON>>` substitution marker. -/
def c5Data : List Nat :=
  bytesOf "#!/usr/bin/python\n#<<INCLUDE_ANSIBLE_MODULE_COMMON>>\nmain()\n"

/-- C5 counterexample: a non-binary source containing the legacy
positional-argument substitution marker (`REPLACER`) is not classified as
the legacy key-value style (`'old'`) and is not an early-terminating style:
the `REPLACER` branch sets `module_style = 'new'` and proceeds into the
AnsiballZ pipeline. -/
theorem classify_replacer_not_legacy :
    ¬ ((classifyModule c5Data).module_style = "old" ∧
        earlyReturnStyle (classifyModule c5Data).module_style = true) := by
  intro h
  exact absurd h.1 (by decide)

/-! ## SourceStore: `ModuleInfo` and `CollectionModuleInfo` (lines 603-667)

The module-utils search path is modelled as one merged root: the code
searches the same relative subdirectory under each `module_utils_paths`
entry, and a found helper is identified by its path relative to the root.
An `MuEntry` is one file of that tree, its path given in segments; a
package `foo` is present through its initializer file, whose path ends in
the literal segment `"__init__"`.  Collection-hosted module_utils
(`pkgutil.get_data`) live in a separate table keyed by the full dotted-path
segments of the module file. -/

/-- One file of the module-utils tree: path segments relative to the root,
whether its suffix marks Python source (`.py` vs. a byte-compiled or binary
module), and its (parsed) contents. -/
structure MuEntry where
  path : List String
  isSrc : Bool
  src : Src
deriving DecidableEq, Repr

/-- One collection-hosted module_utils file, keyed by the dotted-path
segments of the module (without extension). -/
structure CollEntry where
  path : List String
  src : Src
deriving DecidableEq, Repr

/-- The resolution environment of one build. -/
structure Env where
  mu : List MuEntry
  coll : List CollEntry
deriving DecidableEq, Repr

/-- POSIX `os.path.join` on relative segment lists. -/
def pyPathJoin (segs : List String) : String :=
  String.intercalate "/" segs

/-- What `ModuleInfo.__init__` (lines 603-626) learns about a found module:
`pkg_dir` (the found spec is a package initializer), `py_src` (the origin
has a Python source suffix), the source, and the origin path. -/
structure MuInfo where
  pkg_dir : Bool
  py_src : Bool
  src : Src
  path : String
deriving DecidableEq, Repr

/-- `ModuleInfo(name, dirs)` with `dirs` the directory `pre` under the
module-utils root: `importlib`'s `PathFinder` gives a package directory
(`name/__init__.py`) priority over a plain file (`name.py`); `none` models
the raised `ImportError` when neither exists. -/
def findMU (env : Env) (pre : List String) (name : String) : Option MuInfo :=
  match env.mu.find? (fun e => decide (e.path = pre ++ [name, "__init__"])) with
  | some e => some ⟨true, e.isSrc, e.src, pyPathJoin (pre ++ [name, "__init__"]) ++ ".py"⟩
  | none =>
    match env.mu.find? (fun e => decide (e.path = pre ++ [name])) with
    | some e => some ⟨false, e.isSrc, e.src, pyPathJoin (pre ++ [name]) ++ ".py"⟩
    | none => none

/-- `CollectionModuleInfo(name, [os.path.join(*pkgSegs)])` (lines 640-667):
resolves through the collection package-data table; `none` models the raised
`ImportError`. -/
def findColl (env : Env) (pkgSegs : List String) (name : String) : Option Src :=
  (env.coll.find? (fun e => decide (e.path = pkgSegs ++ [name]))).map (fun e => e.src)

/-- `l[-1]` on a non-empty Python tuple (all uses are guarded by length
checks in the source). -/
def lastSeg (l : List String) : String :=
  l.getLast?.getD ""

/-- The ambiguity-resolution loop of `recursive_finder` for a core
`ansible.module_utils` reference (lines 739-749).  `rel` is the reference
tuple minus its `('ansible', 'module_utils')` prefix.  `for idx in (1, 2):`
first try the final segment as a module in the directory of the preceding
segments (the full dotted path as a literal module); only on `ImportError`
retry with the second-to-last segment (dropping the final segment); break
when the tuple is shorter than `idx`. -/
def muTryIdx (env : Env) (rel : List String) : Option (Nat × MuInfo) :=
  if rel.length < 1 then none
  else
    match findMU env rel.dropLast (lastSeg rel) with
    | some info => some (1, info)
    | none =>
      if rel.length < 2 then none
      else
        match findMU env rel.dropLast.dropLast (lastSeg rel.dropLast) with
        | some info => some (2, info)
        | none => none

/-- The same loop for an `ansible_collections` reference (lines 723-734),
via `CollectionModuleInfo`. -/
def collTryIdx (env : Env) (pyName : List String) : Option (Nat × Src) :=
  if pyName.length < 1 then none
  else
    match findColl env pyName.dropLast (lastSeg pyName) with
    | some src => some (1, src)
    | none =>
      if pyName.length < 2 then none
      else
        match findColl env pyName.dropLast.dropLast (lastSeg pyName.dropLast) with
        | some src => some (2, src)
        | none => none

/-- C2: the dependency resolver always attempts the full dotted path as a
literal module first (the final segment looked up in the directory of the
preceding segments); hence if that lookup succeeds — in particular whenever
both the submodule-file and the symbol-of-parent interpretations would
resolve — the full-path (submodule-file) interpretation wins with `idx = 1`,
and only when it fails is the last segment dropped and the parent looked
up. -/
theorem muTryIdx_full_path_wins (env : Env) (rel : List String)
    (hlen : 1 ≤ rel.length) :
    (∀ info, findMU env rel.dropLast (lastSeg rel) = some info →
      muTryIdx env rel = some (1, info)) ∧
    (findMU env rel.dropLast (lastSeg rel) = none →
      muTryIdx env rel =
        if rel.length < 2 then none
        else (findMU env rel.dropLast.dropLast (lastSeg rel.dropLast)).map
          (fun info => (2, info))) := by
  constructor
  · intro info hfound
    unfold muTryIdx
    rw [if_neg (by omega), hfound]
  · intro hnone
    unfold muTryIdx
    rw [if_neg (by omega), hnone]
    dsimp only
    split
    · rfl
    · cases findMU env rel.dropLast.dropLast (lastSeg rel.dropLast) <;> rfl

/-- Environment for the C2 witness: both `pkg/foo.py` (the submodule file)
and `pkg/__init__.py` (the parent whose attribute `foo` could be meant)
exist, so both interpretations of `ansible.module_utils.pkg.foo` resolve. -/
def c2Env : Env :=
  { mu := [⟨["pkg", "foo"], true, []⟩, ⟨["pkg", "__init__"], true, []⟩],
    coll := [] }

theorem muTryIdx_full_path_wins_witness :
    muTryIdx c2Env ["pkg", "foo"] =
      some (1, ⟨false, true, [], "pkg/foo.py"⟩) :=
  (muTryIdx_full_path_wins c2Env ["pkg", "foo"] (by decide)).1
    ⟨false, true, [], "pkg/foo.py"⟩ (by decide)

/-! ## The dependency-closure builder: `recursive_finder` (lines 670-888)

`py_module_names` is a set of module-name tuples (modelled as a
duplicate-free list), `py_module_cache` a dict from tuples to
`(source, path)` (modelled as an association list in insertion order), and
the zipfile an append-only list of `(entry path, contents)`.  Recursion is
driven by structural fuel; `rfFuel` below computes a sufficient amount. -/

/-- Errors (and the artificial fuel exhaustion) of the closure builder. -/
inductive RFErr where
  /-- structural fuel ran out (never with the fuel chosen by `rfFuel`). -/
  | fuelOut
  /-- the scanner crashed (`AttributeError`, see `ScanErr`). -/
  | scanErr (name : String)
  /-- `AnsibleError` of lines 757-764: no interpretation resolved. -/
  | unresolved (name : String) (pyName : List String) (idx : Nat)
  /-- an uncaught `ImportError` from `ModuleInfo` (six / basic / ancestor
  initializer lookups are not wrapped in any try/except). -/
  | importErr (name : String)
  /-- `AnsibleError` of lines 798-804: found only byte-compiled code. -/
  | byteCompiled (name : String) (pyName : List String) (idx : Nat)
  /-- `IndexError` on `relative_module_utils[-1]` with an empty tuple
  (line 841 reached for a package name of fewer than three segments). -/
  | indexErr (pyName : List String)
  /-- `KeyError` on a `py_module_cache` lookup. -/
  | keyErr (pyName : List String)
deriving DecidableEq, Repr

/-- `d[k]` on the association-list dict. -/
def dictGet (cache : List (List String × Src × String)) (k : List String) :
    Option (Src × String) :=
  (cache.find? (fun e => decide (e.1 = k))).map (fun e => e.2)

/-- `d[k] = v`: overwrite in place, or append a new key (Python dicts keep
insertion order). -/
def dictSet (cache : List (List String × Src × String)) (k : List String)
    (v : Src × String) : List (List String × Src × String) :=
  if (cache.find? (fun e => decide (e.1 = k))).isSome then
    cache.map (fun e => if e.1 = k then (k, v) else e)
  else
    cache ++ [(k, v)]

/-- `del d[k]`. -/
def dictErase (cache : List (List String × Src × String)) (k : List String) :
    List (List String × Src × String) :=
  cache.filter (fun e => decide (¬ e.1 = k))

/-- The mutable state of one `recursive_finder` invocation chain. -/
structure RFState where
  names : List (List String)
  cache : List (List String × Src × String)
  zf : List (String × Src)
deriving DecidableEq, Repr

/-- The state threaded through the normalization loop: the cache and
`normalized_modules` (a set, in insertion order). -/
structure NormSt where
  cache : List (List String × Src × String)
  normalized : List (List String)
deriving DecidableEq, Repr

/-- `foldl` over a fallible step. -/
def foldE {α σ : Type} (f : σ → α → Except RFErr σ) : σ → List α → Except RFErr σ
  | st, [] => Except.ok st
  | st, a :: rest =>
    match f st a with
    | .error e => Except.error e
    | .ok st' => foldE f st' rest

/-- Lines 835-844, one ancestor package `pkgName = py_module_name[:-i] +
('__init__',)`: if not yet processed, resolve the package initializer
itself (an unguarded `ModuleInfo` call: failure is an uncaught
`ImportError`) and register it. -/
def coreAncestorStep (env : Env) (names : List (List String))
    (st : NormSt) (pkgName : List String) : Except RFErr NormSt :=
  if pkgName ∈ names then Except.ok st
  else
    let rel := pkgName.drop 2
    match rel.getLast? with
    | none => Except.error (.indexErr pkgName)
    | some last =>
      match findMU env rel.dropLast last with
      | none => Except.error (.importErr last)
      | some pi =>
        Except.ok { cache := dictSet st.cache pkgName (pi.src, pi.path),
                    normalized := insertName st.normalized pkgName }

/-- Lines 792-844: register a module resolved through `ModuleInfo` (the
core namespace and the two six special cases).  Byte-compiled finds are an
error; `idx = 2` means the final segment was an identifier and is dropped;
a package registers under `name + ('__init__',)`; every ancestor package
not yet processed is resolved and registered too. -/
def coreRegister (env : Env) (name : String) (names : List (List String))
    (st : NormSt) (pyName0 : List String) (idx : Nat) (info : MuInfo) :
    Except RFErr NormSt :=
  if !info.pkg_dir && !info.py_src then
    Except.error (.byteCompiled name pyName0 idx)
  else
    let pyName := if idx = 2 then pyName0.dropLast else pyName0
    if (dictGet st.cache pyName).isSome then Except.ok st
    else
      let st1 : NormSt :=
        if info.pkg_dir then
          let nn := pyName ++ ["__init__"]
          if nn ∈ names then st
          else { cache := dictSet st.cache nn (info.src, info.path),
                 normalized := insertName st.normalized nn }
        else
          if pyName ∈ names then st
          else { cache := dictSet st.cache pyName (info.src, info.path),
                 normalized := insertName st.normalized pyName }
      foldE (coreAncestorStep env names) st1
        ((List.range (pyName.length - 1)).map
          (fun i => pyName.take (pyName.length - (i + 1)) ++ ["__init__"]))

/-- Lines 779-790, one collection ancestor package: register an empty
initializer for the accumulated prefix unless the cache already has one
(this guard checks the cache, not `py_module_names`). -/
def collAncestorStep (st : NormSt) (acc : List String) : NormSt :=
  let nn := acc ++ ["__init__"]
  if (dictGet st.cache nn).isSome then st
  else { cache := dictSet st.cache nn ([], pyPathJoin acc),
         normalized := insertName st.normalized nn }

/-- Lines 766-790: register a collection-hosted module and empty
initializers for all its ancestor packages. -/
def collRegister (st : NormSt) (pyName0 : List String) (idx : Nat) (src : Src) :
    NormSt :=
  let pyName := if idx = 2 then pyName0.dropLast else pyName0
  let st1 : NormSt := { cache := dictSet st.cache pyName (src, pyPathJoin pyName),
                        normalized := insertName st.normalized pyName }
  ((List.range (pyName.length - 1)).map (fun i => pyName.take (i + 1))).foldl
    collAncestorStep st1

/-- One iteration of the normalization loop (lines 708-844) on one scanned
reference: the six special cases, collection references, core
`ansible.module_utils` references (through the last-then-second-to-last
trial), and the warn-and-skip fallback for anything else. -/
def normOne (env : Env) (name : String) (names : List (List String))
    (st : NormSt) (pyName : List String) : Except RFErr NormSt :=
  if pyName.take 3 = ["ansible", "module_utils", "six"] then
    -- lines 711-716
    match findMU env [] "six" with
    | none => Except.error (.importErr "six")
    | some info => coreRegister env name names st ["ansible", "module_utils", "six"] 0 info
  else if pyName.take 3 = ["ansible", "module_utils", "_six"] then
    -- lines 717-722
    match findMU env ["six"] "_six" with
    | none => Except.error (.importErr "_six")
    | some info =>
      coreRegister env name names st ["ansible", "module_utils", "six", "_six"] 0 info
  else if pyName.head? = some "ansible_collections" then
    -- lines 723-734 and 766-790
    match collTryIdx env pyName with
    | none => Except.error (.unresolved name pyName (if pyName.length < 1 then 1 else 2))
    | some (idx, src) => Except.ok (collRegister st pyName idx src)
  else if pyName.take 2 = ["ansible", "module_utils"] then
    -- lines 735-749
    match muTryIdx env (pyName.drop 2) with
    | none =>
      Except.error (.unresolved name pyName (if (pyName.drop 2).length < 1 then 1 else 2))
    | some (idx, info) => coreRegister env name names st pyName idx info
  else
    -- lines 750-755: `display.warning(...)`, continue
    Except.ok st

/-- `('ansible', 'module_utils', 'basic')`. -/
def basicName : List String := ["ansible", "module_utils", "basic"]

/-- Lines 846-859: the AnsiballZ wrapper monkeypatches module arguments into
`basic.py`, so `basic` is unconditionally added to the closure when not
already processed (an unguarded `ModuleInfo` call). -/
def basicHack (env : Env) (names : List (List String)) (st : NormSt) :
    Except RFErr NormSt :=
  if basicName ∈ names then Except.ok st
  else
    match findMU env [] "basic" with
    | none => Except.error (.importErr "basic")
    | some info =>
      Except.ok { cache := dictSet st.cache basicName (info.src, info.path),
                  normalized := insertName st.normalized basicName }

/-- The zip entry path of a module-utils tuple (line 872-873):
`'%s.py' % os.path.join(*py_module_name)`. -/
def muPath (pyName : List String) : String :=
  pyPathJoin pyName ++ ".py"

/-- Lines 870-876: write one not-yet-processed module into the zipfile. -/
def writeOne (cache : List (List String × Src × String)) (zf : List (String × Src))
    (pyName : List String) : Except RFErr (List (String × Src)) :=
  match dictGet cache pyName with
  | none => Except.error (.keyErr pyName)
  | some (src, _) => Except.ok (zf ++ [(muPath pyName, src)])

/-- Lines 883-888: recurse into each newly found module (`rf` is
`recursive_finder` at the next fuel level), evicting its cache entry
afterwards to save memory. -/
def recFinderLoop (rf : Src → String → String → RFState → Except RFErr RFState) :
    RFState → List (List String) → Except RFErr RFState
  | st, [] => Except.ok st
  | st, pyName :: rest =>
    match dictGet st.cache pyName with
    | none => Except.error (.keyErr pyName)
    | some (src, _) =>
      match rf src (lastSeg pyName) (pyJoinDot pyName) st with
      | .error e => Except.error e
      | .ok st' =>
        recFinderLoop rf { st' with cache := dictErase st'.cache pyName } rest

/-- `recursive_finder(name, module_fqn, data, py_module_names,
py_module_cache, zf)` (lines 670-888): scan `data`, normalize every
reference not yet processed, unconditionally include `basic`, write all
newly resolved modules into the zip, record them as processed, and recurse
into each of them. -/
def recursiveFinder (env : Env) :
    Nat → String → String → Src → RFState → Except RFErr RFState
  | 0, _, _, _, _ => Except.error .fuelOut
  | fuel + 1, name, module_fqn, data, st =>
    match moduleDepFinderRun module_fqn [] data with
    | .error _ => Except.error (.scanErr name)
    | .ok imports =>
      match foldE (normOne env name st.names) ⟨st.cache, []⟩
          (imports.filter (fun n => decide (¬ n ∈ st.names))) with
      | .error e => Except.error e
      | .ok ns0 =>
        match basicHack env st.names ns0 with
        | .error e => Except.error e
        | .ok ns =>
          let unprocessed := ns.normalized.filter (fun n => decide (¬ n ∈ st.names))
          match foldE (writeOne ns.cache) st.zf unprocessed with
          | .error e => Except.error e
          | .ok zf' =>
            recFinderLoop (fun d nm fq s => recursiveFinder env fuel nm fq d s)
              { names := st.names ++ unprocessed, cache := ns.cache, zf := zf' }
              unprocessed

/-- All prefixes of a path, each with and without a trailing `__init__`. -/
def withInits (l : List String) : List (List String) :=
  l.inits.flatMap (fun p => [p, p ++ ["__init__"]])

/-- A finite overapproximation of every module name `recursive_finder` can
ever add to `py_module_names` for a given environment: names derived from
the files of the module-utils tree and from the collection table. -/
def uNames (env : Env) : List (List String) :=
  env.mu.flatMap (fun e => (withInits e.path).map (fun p => ["ansible", "module_utils"] ++ p)) ++
    env.coll.flatMap (fun e => withInits e.path)

/-- How many candidate names are not yet processed. -/
def rfMeasure (env : Env) (names : List (List String)) : Nat :=
  ((uNames env).filter (fun n => decide (¬ n ∈ names))).length

/-- Sufficient fuel for `recursiveFinder`: every recursion level strictly
shrinks `rfMeasure`. -/
def rfFuel (env : Env) (names : List (List String)) : Nat :=
  rfMeasure env names + 1

/-! ## Zip assembly: `_add_module_to_zip` (lines 930-955) and the python
branch of `_find_module_utils` (lines 1006-1120, inside the cache lock) -/

/-- Lines 930-955: write the module itself at its dotted path joined with
`'/'` plus `.py`, then the `__init__.py` entries needed to reach it (from
index 2 for the `ansible` namespace, whose first levels were set up with
the module_utils; from index 1 otherwise, skipping entries already in the
zip). -/
def addModuleToZip (zf : List (String × Src)) (remote_module_fqn : String)
    (b_module_data : Src) : List (String × Src) :=
  let module_path_parts := pySplitDot remote_module_fqn
  let module_path := pyPathJoin module_path_parts ++ ".py"
  let zf := zf ++ [(module_path, b_module_data)]
  let start := if module_path_parts.head? = some "ansible" then 2 else 1
  let existing : List String :=
    if module_path_parts.head? = some "ansible" then [] else zf.map (fun e => e.1)
  zf ++ (List.range (module_path_parts.length - start)).filterMap (fun i =>
    let package_path := pyPathJoin (module_path_parts.take (start + i)) ++ "/__init__.py"
    if package_path ∈ existing then none
    else some (package_path, ([] : Src)))

/-- The two synthesized package initializers preloaded into
`py_module_cache` (lines 1071-1081); their sources are the `extend_path`
namespace stubs, abstracted to their import statements. -/
def seedCache : List (List String × Src × String) :=
  [(["ansible", "__init__"],
    ([Stmt.impFrom 0 (some "pkgutil") ["extend_path"]], "ansible/__init__.py")),
   (["ansible", "module_utils", "__init__"],
    ([Stmt.impFrom 0 (some "pkgutil") ["extend_path"]], "ansible/module_utils/__init__.py"))]

/-- Lines 1062-1098 (the build inside the lock): preload and write the two
namespace stubs, run `recursive_finder` on the module source, then add the
module itself.  The fuel is computed from the environment and is shown
sufficient by the termination theorem below. -/
def buildModuleZip (env : Env) (module_name remote_module_fqn : String)
    (parsedData : Src) : Except RFErr (List (String × Src)) :=
  let st0 : RFState :=
    { names := seedCache.map (fun e => e.1),
      cache := seedCache,
      zf := seedCache.map (fun e => (e.2.2, e.2.1)) }
  match recursiveFinder env (rfFuel env st0.names) module_name remote_module_fqn
      parsedData st0 with
  | .error e => Except.error e
  | .ok st => Except.ok (addModuleToZip st.zf remote_module_fqn parsedData)

/-! ## Compression selection and the dispatch of `_find_module_utils` -/

/-- The compression-method constants of the `zipfile` module, as resolved by
`getattr(zipfile, module_compression)` (line 1017) for the documented
selector values; `none` models the `AttributeError` for a selector that
names no such attribute. -/
def zipfileAttr (module_compression : String) : Option Nat :=
  if module_compression = "ZIP_STORED" then some 0
  else if module_compression = "ZIP_DEFLATED" then some 8
  else if module_compression = "ZIP_BZIP2" then some 12
  else if module_compression = "ZIP_LZMA" then some 14
  else none

/-- `zipfile.ZIP_STORED`. -/
def ZIP_STORED : Nat := 0

/-- The warning text of line 1019. -/
def badCompressionWarning (module_compression : String) : String :=
  "Bad module compression string specified: " ++ module_compression ++
    ".  Using ZIP_STORED (no compression)"

/-- Lines 1016-1020: resolve the compression selector, falling back to
`ZIP_STORED` with a warning when the attribute does not exist. -/
def selectCompression (module_compression : String) : Nat × List String :=
  match zipfileAttr module_compression with
  | some method => (method, [])
  | none => (ZIP_STORED, [badCompressionWarning module_compression])

/-- The outcome of `_find_module_utils`, by dispatch path: the early return
of lines 1001-1004, the AnsiballZ python branch (carrying the chosen
compression method, the warnings emitted, and the zip build outcome), the
powershell branch, and the jsonargs branch. -/
inductive FMUOut where
  | early (data : List Nat) (module_style : String)
  | pythonOut (method : Nat) (warnings : List String)
      (zip : Except RFErr (List (String × Src)))
  | powershellOut (data : List Nat)
  | jsonargsOut (data : List Nat)
deriving Repr

/-- The dispatch skeleton of `_find_module_utils` (lines 964-1224): classify
the source, return old/want-json/binary data unchanged, and otherwise enter
the substyle branch.  For the python substyle the model covers compression
selection and the zip build (the cache interaction is the transition system
above; the final template rendering is outside the claims).  `parsedData`
stands for the parse of the (possibly marker-substituted) module source that
`recursive_finder` receives. -/
def findModuleUtilsModel (env : Env) (b_module_data : List Nat) (parsedData : Src)
    (module_name remote_module_fqn module_compression : String) : FMUOut :=
  let c := classifyModule b_module_data
  if earlyReturnStyle c.module_style then
    .early c.data c.module_style
  else if c.module_substyle = "python" then
    let sel := selectCompression module_compression
    .pythonOut sel.1 sel.2 (buildModuleZip env module_name remote_module_fqn parsedData)
  else if c.module_substyle = "powershell" then
    .powershellOut c.data
  else
    .jsonargsOut c.data

/-- A one-helper environment (only `basic.py` exists) shared by several
concrete witnesses. -/
def basicOnlyEnv : Env :=
  { mu := [⟨["basic"], true, []⟩], coll := [] }

/-- C9 counterexample: the target module's own file is not the last archive
entry.  For a module `ansible.modules.foo` with no imports, the archive ends
with `ansible/modules/__init__.py`, written by `_add_module_to_zip` after
the module's own entry `ansible/modules/foo.py`. -/
theorem target_module_not_written_last :
    (buildModuleZip basicOnlyEnv "foo" "ansible.modules.foo" []).map
        (fun z => z.map Prod.fst) =
      Except.ok ["ansible/__init__.py", "ansible/module_utils/__init__.py",
        "ansible/module_utils/basic.py", "ansible/modules/foo.py",
        "ansible/modules/__init__.py"] ∧
    (["ansible/__init__.py", "ansible/module_utils/__init__.py",
        "ansible/module_utils/basic.py", "ansible/modules/foo.py",
        "ansible/modules/__init__.py"].getLast? ≠
      some (pyPathJoin (pySplitDot "ansible.modules.foo") ++ ".py")) := by
  constructor
  · rfl
  · decide

/-- If the classifier chose the python substyle, the style is `'new'` and is
not one of the early-return styles. -/
theorem classify_python_not_early (b : List Nat)
    (hpy : (classifyModule b).module_substyle = "python") :
    earlyReturnStyle (classifyModule b).module_style = false := by
  unfold classifyModule at hpy ⊢
  split_ifs at hpy ⊢ <;> dsimp only at hpy ⊢ <;>
    first | rfl | exact absurd hpy (by decide)

/-- C5 (amended): a non-binary source containing the legacy substitution
marker `#<<INCLUDE_ANSIBLE_MODULE_COMMON>>` is classified as the modern
python style (`module_style = 'new'`, `module_substyle = 'python'`) with the
marker replaced by `from ansible.module_utils.basic import *`, and the
pipeline proceeds into the dependency-closure builder and assembler instead
of terminating early. -/
theorem replacer_is_modern_and_proceeds (env : Env) (b : List Nat) (parsedData : Src)
    (mn fqn comp : String)
    (hbin : isBinaryData b = false)
    (hrep : bytesContains b REPLACER = true) :
    classifyModule b =
      ⟨bytesReplace b REPLACER (bytesOf "from ansible.module_utils.basic import *"),
        "new", "python"⟩ ∧
    findModuleUtilsModel env b parsedData mn fqn comp =
      .pythonOut (selectCompression comp).1 (selectCompression comp).2
        (buildModuleZip env mn fqn parsedData) := by
  have hc : classifyModule b =
      ⟨bytesReplace b REPLACER (bytesOf "from ansible.module_utils.basic import *"),
        "new", "python"⟩ := by
    unfold classifyModule
    rw [hbin, hrep]
    rfl
  refine ⟨hc, ?_⟩
  unfold findModuleUtilsModel
  rw [hc]
  rfl

theorem replacer_is_modern_and_proceeds_witness :
    classifyModule c5Data =
      ⟨bytesReplace c5Data REPLACER (bytesOf "from ansible.module_utils.basic import *"),
        "new", "python"⟩ ∧
    findModuleUtilsModel basicOnlyEnv c5Data [] "foo" "ansible.modules.foo" "ZIP_DEFLATED" =
      .pythonOut (selectCompression "ZIP_DEFLATED").1 (selectCompression "ZIP_DEFLATED").2
        (buildModuleZip basicOnlyEnv "foo" "ansible.modules.foo" []) :=
  replacer_is_modern_and_proceeds basicOnlyEnv c5Data [] "foo" "ansible.modules.foo"
    "ZIP_DEFLATED" (by decide) (by decide)

/-- C10: for a modern-style (python) build whose compression selector names
no attribute of the `zipfile` module, the build does not fail: it emits the
bad-compression warning, falls back to `ZIP_STORED`, and otherwise proceeds
exactly as a `ZIP_STORED` build (same dispatch, same zip build). -/
theorem bad_compression_falls_back (env : Env) (b : List Nat) (parsedData : Src)
    (mn fqn comp : String)
    (hpy : (classifyModule b).module_substyle = "python")
    (hbad : zipfileAttr comp = none) :
    findModuleUtilsModel env b parsedData mn fqn comp =
      .pythonOut ZIP_STORED [badCompressionWarning comp]
        (buildModuleZip env mn fqn parsedData) ∧
    findModuleUtilsModel env b parsedData mn fqn "ZIP_STORED" =
      .pythonOut ZIP_STORED [] (buildModuleZip env mn fqn parsedData) := by
  have hne := classify_python_not_early b hpy
  constructor
  · simp only [findModuleUtilsModel, selectCompression, hne, hpy, hbad,
      Bool.false_eq_true, if_false, if_pos]
  · simp only [findModuleUtilsModel, hne, hpy, Bool.false_eq_true, if_false, if_pos]
    rfl

theorem bad_compression_falls_back_witness :
    findModuleUtilsModel basicOnlyEnv c4Data [] "foo" "ansible.modules.foo" "ZIP_BOGUS" =
      .pythonOut ZIP_STORED [badCompressionWarning "ZIP_BOGUS"]
        (buildModuleZip basicOnlyEnv "foo" "ansible.modules.foo" []) ∧
    findModuleUtilsModel basicOnlyEnv c4Data [] "foo" "ansible.modules.foo" "ZIP_STORED" =
      .pythonOut ZIP_STORED [] (buildModuleZip basicOnlyEnv "foo" "ansible.modules.foo" []) :=
  bad_compression_falls_back basicOnlyEnv c4Data [] "foo" "ansible.modules.foo" "ZIP_BOGUS"
    (by decide) (by decide)

/-- `st'` extends `st`: processed names only grow and the zipfile is
append-only. -/
def RFExt (st st' : RFState) : Prop :=
  (∀ n ∈ st.names, n ∈ st'.names) ∧ (∃ t, st'.zf = st.zf ++ t)

theorem rfExt_refl (st : RFState) : RFExt st st :=
  ⟨fun _ h => h, ⟨[], (List.append_nil _).symm⟩⟩

theorem rfExt_trans {a b c : RFState} (h1 : RFExt a b) (h2 : RFExt b c) : RFExt a c := by
  obtain ⟨m1, t1, e1⟩ := h1
  obtain ⟨m2, t2, e2⟩ := h2
  exact ⟨fun n h => m2 n (m1 n h), ⟨t1 ++ t2, by rw [e2, e1, List.append_assoc]⟩⟩

theorem foldE_writeOne_ext (cache : List (List String × Src × String)) :
    ∀ (l : List (List String)) (zf zf' : List (String × Src)),
      foldE (writeOne cache) zf l = Except.ok zf' →
      ∃ t, zf' = zf ++ t ∧ t.map Prod.fst = l.map muPath := by
  intro l
  induction l with
  | nil =>
    intro zf zf' h
    injection h with h
    exact ⟨[], by simp [h.symm]⟩
  | cons n rest ih =>
    intro zf zf' h
    unfold foldE writeOne at h
    cases hget : dictGet cache n with
    | none => rw [hget] at h; exact absurd h (by simp)
    | some v =>
      rw [hget] at h
      obtain ⟨src, p⟩ := v
      obtain ⟨t, ht, hmap⟩ := ih (zf ++ [(muPath n, src)]) zf' h
      refine ⟨(muPath n, src) :: t, ?_, ?_⟩
      · rw [ht, List.append_assoc]
        rfl
      · simp [hmap]

theorem recFinderLoop_ext
    (rf : Src → String → String → RFState → Except RFErr RFState)
    (hrf : ∀ d nm fq s s', rf d nm fq s = Except.ok s' → RFExt s s') :
    ∀ (l : List (List String)) (st st' : RFState),
      recFinderLoop rf st l = Except.ok st' → RFExt st st' := by
  intro l
  induction l with
  | nil =>
    intro st st' h
    injection h with h
    rw [← h]
    exact rfExt_refl st
  | cons n rest ih =>
    intro st st' h
    unfold recFinderLoop at h
    cases hget : dictGet st.cache n with
    | none => rw [hget] at h; exact absurd h (by simp)
    | some v =>
      rw [hget] at h
      obtain ⟨src, p⟩ := v
      dsimp only at h
      cases hrun : rf src (lastSeg n) (pyJoinDot n) st with
      | error e => rw [hrun] at h; exact absurd h (by simp)
      | ok s1 =>
        rw [hrun] at h
        dsimp only at h
        have h1 := hrf src (lastSeg n) (pyJoinDot n) st s1 hrun
        have h2 := ih { s1 with cache := dictErase s1.cache n } st' h
        exact rfExt_trans h1 (rfExt_trans ⟨fun _ hh => hh, ⟨[], (List.append_nil _).symm⟩⟩ h2)

theorem recursiveFinder_ext (env : Env) :
    ∀ (fuel : Nat) (name fqn : String) (data : Src) (st st' : RFState),
      recursiveFinder env fuel name fqn data st = Except.ok st' → RFExt st st' := by
  intro fuel
  induction fuel with
  | zero =>
    intro name fqn data st st' h
    exact absurd h (by simp [recursiveFinder])
  | succ n ih =>
    intro name fqn data st st' h
    rw [recursiveFinder] at h
    cases hscan : moduleDepFinderRun fqn [] data with
    | error e => rw [hscan] at h; exact absurd h (by simp)
    | ok imports =>
      rw [hscan] at h
      dsimp only at h
      cases hnorm : foldE (normOne env name st.names) ⟨st.cache, []⟩
          (imports.filter (fun m => decide (¬ m ∈ st.names))) with
      | error e => rw [hnorm] at h; exact absurd h (by simp)
      | ok ns0 =>
        rw [hnorm] at h
        dsimp only at h
        cases hbasic : basicHack env st.names ns0 with
        | error e => rw [hbasic] at h; exact absurd h (by simp)
        | ok ns =>
          rw [hbasic] at h
          dsimp only at h
          cases hwrite : foldE (writeOne ns.cache) st.zf
              (ns.normalized.filter (fun m => decide (¬ m ∈ st.names))) with
          | error e => rw [hwrite] at h; exact absurd h (by simp)
          | ok zf' =>
            rw [hwrite] at h
            dsimp only at h
            have hmid := recFinderLoop_ext _
              (fun d nm fq s s' hh => ih nm fq d s s' hh) _ _ _ h
            obtain ⟨t, ht, _⟩ := foldE_writeOne_ext ns.cache _ _ _ hwrite
            refine rfExt_trans ?_ hmid
            exact ⟨fun m hm => List.mem_append_left _ hm, ⟨t, ht⟩⟩

theorem mem_insertName (l : List (List String)) (m n : List String) :
    n ∈ insertName l m ↔ n ∈ l ∨ n = m := by
  unfold insertName
  split
  · rename_i hmem
    constructor
    · exact fun h => Or.inl h
    · rintro (h | rfl)
      · exact h
      · exact hmem
  · simp

/-- C3: whenever a `recursive_finder` pass completes on a state whose
processed set does not yet contain `('ansible', 'module_utils', 'basic')`,
the helper `basic` ends up in the processed set and its source is written
into the archive at `ansible/module_utils/basic.py`, whether or not any
scanned source imports it. -/
theorem basic_unconditionally_included (env : Env) (fuel : Nat) (name fqn : String)
    (data : Src) (st st' : RFState)
    (hb : ¬ basicName ∈ st.names)
    (h : recursiveFinder env fuel name fqn data st = Except.ok st') :
    basicName ∈ st'.names ∧ ∃ s, (muPath basicName, s) ∈ st'.zf := by
  cases fuel with
  | zero => exact absurd h (by simp [recursiveFinder])
  | succ n =>
    rw [recursiveFinder] at h
    cases hscan : moduleDepFinderRun fqn [] data with
    | error e => rw [hscan] at h; exact absurd h (by simp)
    | ok imports =>
      rw [hscan] at h
      dsimp only at h
      cases hnorm : foldE (normOne env name st.names) ⟨st.cache, []⟩
          (imports.filter (fun m => decide (¬ m ∈ st.names))) with
      | error e => rw [hnorm] at h; exact absurd h (by simp)
      | ok ns0 =>
        rw [hnorm] at h
        dsimp only at h
        cases hbasic : basicHack env st.names ns0 with
        | error e => rw [hbasic] at h; exact absurd h (by simp)
        | ok ns =>
          rw [hbasic] at h
          dsimp only at h
          cases hwrite : foldE (writeOne ns.cache) st.zf
              (ns.normalized.filter (fun m => decide (¬ m ∈ st.names))) with
          | error e => rw [hwrite] at h; exact absurd h (by simp)
          | ok zf' =>
            rw [hwrite] at h
            dsimp only at h
            have hbn : basicName ∈ ns.normalized := by
              unfold basicHack at hbasic
              rw [if_neg hb] at hbasic
              cases hfind : findMU env [] "basic" with
              | none => rw [hfind] at hbasic; exact absurd hbasic (by simp)
              | some info =>
                rw [hfind] at hbasic
                injection hbasic with hbasic
                rw [← hbasic]
                exact (mem_insertName _ _ _).mpr (Or.inr rfl)
            have hunp : basicName ∈ ns.normalized.filter
                (fun m => decide (¬ m ∈ st.names)) := by
              rw [List.mem_filter]
              exact ⟨hbn, by simp [hb]⟩
            obtain ⟨t, ht, hmap⟩ := foldE_writeOne_ext ns.cache _ _ _ hwrite
            have hpath : muPath basicName ∈ t.map Prod.fst := by
              rw [hmap]
              exact List.mem_map_of_mem _ hunp
            obtain ⟨entry, hent, hfst⟩ := List.mem_map.mp hpath
            have hmid := recFinderLoop_ext _
              (fun d nm fq s s' hh => recursiveFinder_ext env n nm fq d s s' hh) _ _ _ h
            constructor
            · exact hmid.1 _ (List.mem_append_right _ hunp)
            · obtain ⟨t2, ht2⟩ := hmid.2
              refine ⟨entry.2, ?_⟩
              have hentry : (muPath basicName, entry.2) = entry := by
                rw [← hfst]
              rw [ht2, hentry]
              exact List.mem_append_left _ (ht ▸ List.mem_append_right _ hent)

/-- The concrete final state of a `recursive_finder` run for the C3 witness
(one module with no imports over `basicOnlyEnv`). -/
def c3FinalState : RFState :=
  { names := [["ansible", "__init__"], ["ansible", "module_utils", "__init__"],
      ["ansible", "module_utils", "basic"]],
    cache := seedCache,
    zf := [("ansible/__init__.py", [Stmt.impFrom 0 (some "pkgutil") ["extend_path"]]),
      ("ansible/module_utils/__init__.py", [Stmt.impFrom 0 (some "pkgutil") ["extend_path"]]),
      ("ansible/module_utils/basic.py", [])] }

theorem basic_unconditionally_included_witness :
    basicName ∈ c3FinalState.names ∧ ∃ s, (muPath basicName, s) ∈ c3FinalState.zf :=
  basic_unconditionally_included basicOnlyEnv 2 "foo" "ansible.modules.foo" []
    ⟨seedCache.map (fun e => e.1), seedCache, seedCache.map (fun e => (e.2.2, e.2.1))⟩
    c3FinalState (by decide) (by rfl)

/-! ## Support for the termination and exactly-once theorem (C8) -/

theorem filter_length_le_of_imp {α : Type} (p q : α → Bool)
    (himp : ∀ a, q a = true → p a = true) :
    ∀ U : List α, (U.filter q).length ≤ (U.filter p).length := by
  intro U
  induction U with
  | nil => simp
  | cons u rest ih =>
    by_cases hq : q u = true
    · rw [List.filter_cons_of_pos hq, List.filter_cons_of_pos (himp u hq)]
      simpa using ih
    · rw [List.filter_cons_of_neg (by simpa using hq)]
      by_cases hp : p u = true
      · rw [List.filter_cons_of_pos hp]
        exact Nat.le_succ_of_le ih
      · rw [List.filter_cons_of_neg (by simpa using hp)]
        exact ih

theorem filter_length_lt_of_imp {α : Type} (p q : α → Bool)
    (himp : ∀ a, q a = true → p a = true) (a : α) :
    ∀ U : List α, a ∈ U → p a = true → q a = false →
      (U.filter q).length < (U.filter p).length := by
  intro U
  induction U with
  | nil => simp
  | cons u rest ih =>
    intro hmem hpa hqa
    rcases List.mem_cons.mp hmem with rfl | hmem
    · rw [List.filter_cons_of_neg (by simp [hqa]), List.filter_cons_of_pos hpa]
      exact Nat.lt_succ_of_le (filter_length_le_of_imp p q himp rest)
    · by_cases hq : q u = true
      · rw [List.filter_cons_of_pos hq, List.filter_cons_of_pos (himp u hq)]
        simpa using ih hmem hpa hqa
      · rw [List.filter_cons_of_neg (by simpa using hq)]
        by_cases hp : p u = true
        · rw [List.filter_cons_of_pos hp]
          exact Nat.lt_succ_of_lt (ih hmem hpa hqa)
        · rw [List.filter_cons_of_neg (by simpa using hp)]
          exact ih hmem hpa hqa

/-- A clean path segment: non-empty and without a path separator (true of
every real module-name identifier). -/
def cleanSeg (s : String) : Prop :=
  ¬ s = "" ∧ ¬ '/' ∈ s.data

/-- A clean module name: non-empty with clean segments. -/
def cleanName (n : List String) : Prop :=
  ¬ n = [] ∧ ∀ s ∈ n, cleanSeg s

/-- A clean environment: every file path is a clean name. -/
def CleanEnv (env : Env) : Prop :=
  (∀ e ∈ env.mu, cleanName e.path) ∧ (∀ e ∈ env.coll, cleanName e.path)

/-- Candidate names together with cleanliness. -/
def UC (env : Env) (n : List String) : Prop :=
  n ∈ uNames env ∧ cleanName n

instance (s : String) : Decidable (cleanSeg s) := by
  unfold cleanSeg
  infer_instance

instance (n : List String) : Decidable (cleanName n) := by
  unfold cleanName
  infer_instance

theorem stringExt {s t : String} (h : s.data = t.data) : s = t := by
  cases s
  cases t
  exact congrArg String.mk h

theorem intercalate_go_data (s : String) :
    ∀ (as : List String) (acc : String),
      (String.intercalate.go acc s as).data =
        acc.data ++ as.flatMap (fun a => s.data ++ a.data) := by
  intro as
  induction as with
  | nil =>
    intro acc
    simp [String.intercalate.go]
  | cons a as ih =>
    intro acc
    rw [String.intercalate.go, ih]
    simp [List.append_assoc]

theorem pyPathJoin_data_cons (a : String) (as : List String) :
    (pyPathJoin (a :: as)).data = a.data ++ as.flatMap (fun x => '/' :: x.data) := by
  unfold pyPathJoin
  rw [String.intercalate, intercalate_go_data]
  rfl

theorem slash_split {x u y v : List Char}
    (hx : ¬ '/' ∈ x) (hy : ¬ '/' ∈ y)
    (h : x ++ '/' :: u = y ++ '/' :: v) : x = y ∧ u = v := by
  induction x generalizing y with
  | nil =>
    cases y with
    | nil => simpa using h
    | cons c ys =>
      rw [List.nil_append, List.cons_append] at h
      injection h with h1 h2
      exact absurd (h1 ▸ List.mem_cons_self c ys) hy
  | cons c xs ih =>
    cases y with
    | nil =>
      rw [List.nil_append, List.cons_append] at h
      injection h with h1 h2
      exact absurd (h1 ▸ List.mem_cons_self c xs) (h1 ▸ hx)
    | cons d ys =>
      rw [List.cons_append, List.cons_append] at h
      injection h with h1 h2
      have hx' : ¬ '/' ∈ xs := fun hm => hx (List.mem_cons_of_mem _ hm)
      have hy' : ¬ '/' ∈ ys := fun hm => hy (List.mem_cons_of_mem _ hm)
      obtain ⟨hxy, huv⟩ := ih hx' hy' h2
      exact ⟨by rw [h1, hxy], huv⟩

theorem pyPathJoin_data_inj : ∀ (a b : List String),
    a ≠ [] → b ≠ [] → (∀ s ∈ a, cleanSeg s) → (∀ s ∈ b, cleanSeg s) →
    (pyPathJoin a).data = (pyPathJoin b).data → a = b := by
  intro a
  induction a with
  | nil => intro b h; exact absurd rfl h
  | cons x xs ih =>
    intro b _ hbne hca hcb h
    cases b with
    | nil => exact absurd rfl hbne
    | cons y ys =>
      rw [pyPathJoin_data_cons, pyPathJoin_data_cons] at h
      have hxc := hca x (List.mem_cons_self _ _)
      have hyc := hcb y (List.mem_cons_self _ _)
      cases xs with
      | nil =>
        cases ys with
        | nil =>
          simp only [List.flatMap_nil, List.append_nil] at h
          rw [stringExt h]
        | cons y2 yt =>
          exfalso
          apply hxc.2
          rw [List.flatMap_nil, List.append_nil] at h
          rw [h, List.flatMap_cons, List.cons_append]
          exact List.mem_append_right _ (List.mem_cons_self _ _)
      | cons x2 xt =>
        cases ys with
        | nil =>
          exfalso
          apply hyc.2
          rw [List.flatMap_nil, List.append_nil] at h
          rw [← h, List.flatMap_cons, List.cons_append]
          exact List.mem_append_right _ (List.mem_cons_self _ _)
        | cons y2 yt =>
          rw [List.flatMap_cons, List.flatMap_cons, List.cons_append, List.cons_append] at h
          obtain ⟨h1, h2⟩ := slash_split hxc.2 hyc.2 h
          have hca' : ∀ s ∈ x2 :: xt, cleanSeg s :=
            fun s hs => hca s (List.mem_cons_of_mem _ hs)
          have hcb' : ∀ s ∈ y2 :: yt, cleanSeg s :=
            fun s hs => hcb s (List.mem_cons_of_mem _ hs)
          have h2' : (pyPathJoin (x2 :: xt)).data = (pyPathJoin (y2 :: yt)).data := by
            rw [pyPathJoin_data_cons, pyPathJoin_data_cons]
            exact h2
          have := ih (y2 :: yt) (by simp) (by simp) hca' hcb' h2'
          rw [stringExt h1, this]

/-- Distinct clean module names have distinct zip entry paths. -/
theorem muPath_inj {a b : List String} (ha : cleanName a) (hb : cleanName b)
    (h : muPath a = muPath b) : a = b := by
  have hd := congrArg String.data h
  unfold muPath at hd
  rw [String.data_append, String.data_append] at hd
  exact pyPathJoin_data_inj a b ha.1 hb.1 ha.2 hb.2 (List.append_cancel_right hd)

theorem find?_decide_prop {α : Type} (P : α → Prop) [DecidablePred P] {l : List α} {a : α}
    (h : l.find? (fun x => decide (P x)) = some a) : a ∈ l ∧ P a := by
  have h1 := @List.find?_some α (fun x => decide (P x)) a l h
  exact ⟨List.mem_of_find?_eq_some h, of_decide_eq_true h1⟩

theorem findMU_inv {env : Env} {pre : List String} {nm : String} {info : MuInfo}
    (h : findMU env pre nm = some info) :
    (info.pkg_dir = true ∧ ∃ e ∈ env.mu, e.path = pre ++ [nm, "__init__"]) ∨
    (info.pkg_dir = false ∧ ∃ e ∈ env.mu, e.path = pre ++ [nm]) := by
  unfold findMU at h
  cases h1 : env.mu.find? (fun e => decide (e.path = pre ++ [nm, "__init__"])) with
  | some e =>
    rw [h1] at h
    injection h with h
    subst h
    obtain ⟨hm, hp⟩ := find?_decide_prop (fun e : MuEntry => e.path = pre ++ [nm, "__init__"]) h1
    exact Or.inl ⟨rfl, e, hm, hp⟩
  | none =>
    rw [h1] at h
    dsimp only at h
    cases h2 : env.mu.find? (fun e => decide (e.path = pre ++ [nm])) with
    | some e =>
      rw [h2] at h
      injection h with h
      subst h
      obtain ⟨hm, hp⟩ := find?_decide_prop (fun e : MuEntry => e.path = pre ++ [nm]) h2
      exact Or.inr ⟨rfl, e, hm, hp⟩
    | none =>
      rw [h2] at h
      exact absurd h (by simp)

theorem findColl_inv {env : Env} {pkgSegs : List String} {nm : String} {src : Src}
    (h : findColl env pkgSegs nm = some src) :
    ∃ e ∈ env.coll, e.path = pkgSegs ++ [nm] := by
  unfold findColl at h
  cases h1 : env.coll.find? (fun e => decide (e.path = pkgSegs ++ [nm])) with
  | some e =>
    obtain ⟨hm, hp⟩ := find?_decide_prop (fun e : CollEntry => e.path = pkgSegs ++ [nm]) h1
    exact ⟨e, hm, hp⟩
  | none =>
    rw [h1] at h
    exact absurd h (by simp)

theorem mem_withInits {p q : List String} (hp : p <+: q) :
    p ∈ withInits q ∧ (p ++ ["__init__"]) ∈ withInits q := by
  unfold withInits
  constructor <;> rw [List.mem_flatMap] <;>
    exact ⟨p, (List.mem_inits _ _).mpr hp, by simp⟩

theorem cleanName_core {p : List String} (hp : ∀ s ∈ p, cleanSeg s) :
    cleanName (["ansible", "module_utils"] ++ p) ∧
    cleanName (["ansible", "module_utils"] ++ p ++ ["__init__"]) := by
  constructor <;> refine ⟨by simp, ?_⟩ <;> intro s hs <;>
    simp only [List.mem_append, List.mem_cons, List.not_mem_nil, or_false] at hs
  · rcases hs with (rfl | rfl) | hs
    · decide
    · decide
    · exact hp s hs
  · rcases hs with ((rfl | rfl) | hs) | rfl
    · decide
    · decide
    · exact hp s hs
    · decide

/-- Core-namespace candidate names: `("ansible","module_utils") ++ p` for a
prefix `p` of a module-utils file path is a clean candidate, with or without
a trailing `__init__`. -/
theorem UC_core {env : Env} (hcl : CleanEnv env) {e : MuEntry} (he : e ∈ env.mu)
    {p : List String} (hp : p <+: e.path) :
    UC env (["ansible", "module_utils"] ++ p) ∧
    UC env (["ansible", "module_utils"] ++ p ++ ["__init__"]) := by
  have hseg : ∀ s ∈ p, cleanSeg s := fun s hs => (hcl.1 e he).2 s (hp.subset hs)
  have hmem : (["ansible", "module_utils"] ++ p) ∈ uNames env ∧
      (["ansible", "module_utils"] ++ p ++ ["__init__"]) ∈ uNames env := by
    unfold uNames
    constructor <;> apply List.mem_append_left <;> rw [List.mem_flatMap] <;>
      refine ⟨e, he, List.mem_map.mpr ?_⟩
    · exact ⟨p, (mem_withInits hp).1, rfl⟩
    · exact ⟨p ++ ["__init__"], (mem_withInits hp).2, by rw [List.append_assoc]⟩
  exact ⟨⟨hmem.1, (cleanName_core hseg).1⟩, ⟨hmem.2, (cleanName_core hseg).2⟩⟩

/-- Collection candidate names: a prefix of a collection file path is a
candidate; with a trailing `__init__` it is clean even when empty. -/
theorem UC_coll {env : Env} (hcl : CleanEnv env) {e : CollEntry} (he : e ∈ env.coll)
    {p : List String} (hp : p <+: e.path) :
    (p ≠ [] → UC env p) ∧ UC env (p ++ ["__init__"]) := by
  have hseg : ∀ s ∈ p, cleanSeg s := fun s hs => (hcl.2 e he).2 s (hp.subset hs)
  have hmem : p ∈ uNames env ∧ (p ++ ["__init__"]) ∈ uNames env := by
    unfold uNames
    constructor <;> apply List.mem_append_right <;> rw [List.mem_flatMap]
    · exact ⟨e, he, (mem_withInits hp).1⟩
    · exact ⟨e, he, (mem_withInits hp).2⟩
  refine ⟨fun hne => ⟨hmem.1, hne, hseg⟩, hmem.2, by simp, ?_⟩
  intro s hs
  rcases List.mem_append.mp hs with hs | hs
  · exact hseg s hs
  · rw [List.mem_singleton.mp hs]
    decide

/-- The invariant of the normalization phase: `normalized_modules` is
duplicate-free and every member is a clean candidate name. -/
def NormP (env : Env) (st : NormSt) : Prop :=
  st.normalized.Nodup ∧ ∀ n ∈ st.normalized, UC env n

theorem insertName_nodup {l : List (List String)} {m : List String} (h : l.Nodup) :
    (insertName l m).Nodup := by
  unfold insertName
  split
  · exact h
  · rename_i hm
    rw [(List.perm_append_singleton _ _).nodup_iff, List.nodup_cons]
    exact ⟨hm, h⟩

theorem normP_insert {env : Env} {st : NormSt} (h : NormP env st) {n : List String}
    (hn : UC env n) (cache' : List (List String × Src × String)) :
    NormP env ⟨cache', insertName st.normalized n⟩ := by
  refine ⟨insertName_nodup h.1, ?_⟩
  intro m hm
  rcases (mem_insertName _ _ _).mp hm with hm | rfl
  · exact h.2 m hm
  · exact hn

theorem foldE_inv {α σ : Type} (f : σ → α → Except RFErr σ) (P : σ → Prop) :
    ∀ (l : List α),
      (∀ st a st', a ∈ l → P st → f st a = Except.ok st' → P st') →
      ∀ st st', P st → foldE f st l = Except.ok st' → P st' := by
  intro l
  induction l with
  | nil =>
    intro _ st st' hP h
    injection h with h
    rw [← h]
    exact hP
  | cons a rest ih =>
    intro hstep st st' hP h
    unfold foldE at h
    cases hf : f st a with
    | error e => rw [hf] at h; exact absurd h (by simp)
    | ok st1 =>
      rw [hf] at h
      exact ih (fun s b s' hb => hstep s b s' (List.mem_cons_of_mem _ hb))
        st1 st' (hstep st a st1 (List.mem_cons_self _ _) hP hf) h

theorem dropLast_append_lastSeg {l : List String} (h : l ≠ []) :
    l.dropLast ++ [lastSeg l] = l := by
  unfold lastSeg
  rw [List.getLast?_eq_getLast l h]
  exact List.dropLast_append_getLast h

theorem ancestor_shape {pyName : List String}
    (hsh : pyName.take 2 = ["ansible", "module_utils"]) (k : Nat) :
    (pyName.take k ++ ["__init__"]).take 2 = ["ansible", "module_utils"] ∨
    (pyName.take k ++ ["__init__"]).length ≤ 2 := by
  have hlen : 2 ≤ pyName.length := by
    have h2 := congrArg List.length hsh
    rw [List.length_take] at h2
    simp only [List.length_cons, List.length_nil] at h2
    omega
  rcases Nat.lt_or_ge k 2 with hk | hk
  · right
    rw [List.length_append, List.length_take]
    simp only [List.length_singleton]
    omega
  · left
    rw [List.take_append_of_le_length (by rw [List.length_take]; omega), List.take_take,
      Nat.min_eq_left hk]
    exact hsh

theorem coreAncestorStep_P {env : Env} (hcl : CleanEnv env) {nms : List (List String)}
    {st st' : NormSt} {pkgName : List String}
    (hsh : pkgName.take 2 = ["ansible", "module_utils"] ∨ pkgName.length ≤ 2)
    (h : NormP env st)
    (hstep : coreAncestorStep env nms st pkgName = Except.ok st') : NormP env st' := by
  unfold coreAncestorStep at hstep
  split at hstep
  · injection hstep with hstep
    rw [← hstep]
    exact h
  · dsimp only at hstep
    cases hlast : (pkgName.drop 2).getLast? with
    | none => rw [hlast] at hstep; exact absurd hstep (by simp)
    | some last =>
      rw [hlast] at hstep
      dsimp only at hstep
      cases hfind : findMU env (pkgName.drop 2).dropLast last with
      | none => rw [hfind] at hstep; exact absurd hstep (by simp)
      | some pi =>
        rw [hfind] at hstep
        injection hstep with hstep
        rw [← hstep]
        have hrel : pkgName.drop 2 ≠ [] := by
          intro hnil
          rw [hnil] at hlast
          simp at hlast
        have hsh' : pkgName.take 2 = ["ansible", "module_utils"] := by
          rcases hsh with hsh | hsh
          · exact hsh
          · exact absurd (List.drop_eq_nil_iff.mpr hsh) hrel
        have hdl : (pkgName.drop 2).dropLast ++ [last] = pkgName.drop 2 :=
          List.dropLast_append_getLast? last hlast
        have hrepr : pkgName = ["ansible", "module_utils"] ++ pkgName.drop 2 := by
          rw [← hsh']
          exact (List.take_append_drop 2 pkgName).symm
        have hUC : UC env pkgName := by
          rcases findMU_inv hfind with ⟨_, e, he, hpath⟩ | ⟨_, e, he, hpath⟩
          · have hpre : pkgName.drop 2 <+: e.path := by
              rw [hpath]
              refine ⟨["__init__"], ?_⟩
              conv_lhs => rw [← hdl]
              rw [List.append_assoc]
              rfl
            rw [hrepr]
            exact (UC_core hcl he hpre).1
          · have hpre : pkgName.drop 2 <+: e.path := by
              rw [hpath, hdl]
            rw [hrepr]
            exact (UC_core hcl he hpre).1
        exact normP_insert h hUC _

theorem coreRegister_P {env : Env} (hcl : CleanEnv env) {name : String}
    {nms : List (List String)} {st st' : NormSt} {pyName0 : List String}
    {idx : Nat} {info : MuInfo}
    (hUCpkg : info.pkg_dir = true →
      UC env ((if idx = 2 then pyName0.dropLast else pyName0) ++ ["__init__"]))
    (hUCfile : info.pkg_dir = false →
      UC env (if idx = 2 then pyName0.dropLast else pyName0))
    (hsh : (if idx = 2 then pyName0.dropLast else pyName0).take 2 =
      ["ansible", "module_utils"])
    (h : NormP env st)
    (hreg : coreRegister env name nms st pyName0 idx info = Except.ok st') :
    NormP env st' := by
  unfold coreRegister at hreg
  split at hreg
  · exact absurd hreg (by simp)
  · dsimp only at hreg
    by_cases hc :
        (dictGet st.cache (if idx = 2 then pyName0.dropLast else pyName0)).isSome = true
    · rw [if_pos hc] at hreg
      injection hreg with hreg
      rw [← hreg]
      exact h
    · rw [if_neg hc] at hreg
      refine foldE_inv _ (NormP env) _ ?_ _ _ ?_ hreg
      · intro s a s' ha hP hstep
        obtain ⟨i, _, rfl⟩ := List.mem_map.mp ha
        exact coreAncestorStep_P hcl (ancestor_shape hsh _) hP hstep
      · cases hpd : info.pkg_dir with
        | true =>
          rw [if_pos rfl]
          by_cases hmem :
              (if idx = 2 then pyName0.dropLast else pyName0) ++ ["__init__"] ∈ nms
          · rw [if_pos hmem]
            exact h
          · rw [if_neg hmem]
            exact normP_insert h (hUCpkg hpd) _
        | false =>
          rw [if_neg (by simp)]
          by_cases hmem : (if idx = 2 then pyName0.dropLast else pyName0) ∈ nms
          · rw [if_pos hmem]
            exact h
          · rw [if_neg hmem]
            exact normP_insert h (hUCfile hpd) _

theorem muTryIdx_inv {env : Env} {rel : List String} {idx : Nat} {info : MuInfo}
    (h : muTryIdx env rel = some (idx, info)) :
    1 ≤ rel.length ∧
    ((idx = 1 ∧ findMU env rel.dropLast (lastSeg rel) = some info) ∨
     (idx = 2 ∧ 2 ≤ rel.length ∧
       findMU env rel.dropLast.dropLast (lastSeg rel.dropLast) = some info)) := by
  unfold muTryIdx at h
  split at h
  · exact absurd h (by simp)
  · rename_i hlen
    refine ⟨by omega, ?_⟩
    cases h1 : findMU env rel.dropLast (lastSeg rel) with
    | some i =>
      rw [h1] at h
      injection h with h
      have hidx : idx = 1 := (congrArg Prod.fst h).symm
      have hi : i = info := congrArg Prod.snd h
      exact Or.inl ⟨hidx, by rw [hi]⟩
    | none =>
      rw [h1] at h
      dsimp only at h
      split at h
      · exact absurd h (by simp)
      · rename_i hlen2
        cases h2 : findMU env rel.dropLast.dropLast (lastSeg rel.dropLast) with
        | some i =>
          rw [h2] at h
          injection h with h
          have hidx : idx = 2 := (congrArg Prod.fst h).symm
          have hi : i = info := congrArg Prod.snd h
          exact Or.inr ⟨hidx, by omega, by rw [hi]⟩
        | none =>
          rw [h2] at h
          exact absurd h (by simp)

theorem collTryIdx_inv {env : Env} {pyName : List String} {idx : Nat} {src : Src}
    (h : collTryIdx env pyName = some (idx, src)) :
    1 ≤ pyName.length ∧
    ((idx = 1 ∧ findColl env pyName.dropLast (lastSeg pyName) = some src) ∨
     (idx = 2 ∧ 2 ≤ pyName.length ∧
       findColl env pyName.dropLast.dropLast (lastSeg pyName.dropLast) = some src)) := by
  unfold collTryIdx at h
  split at h
  · exact absurd h (by simp)
  · rename_i hlen
    refine ⟨by omega, ?_⟩
    cases h1 : findColl env pyName.dropLast (lastSeg pyName) with
    | some s =>
      rw [h1] at h
      injection h with h
      have hidx : idx = 1 := (congrArg Prod.fst h).symm
      have hs : s = src := congrArg Prod.snd h
      exact Or.inl ⟨hidx, by rw [hs]⟩
    | none =>
      rw [h1] at h
      dsimp only at h
      split at h
      · exact absurd h (by simp)
      · rename_i hlen2
        cases h2 : findColl env pyName.dropLast.dropLast (lastSeg pyName.dropLast) with
        | some s =>
          rw [h2] at h
          injection h with h
          have hidx : idx = 2 := (congrArg Prod.fst h).symm
          have hs : s = src := congrArg Prod.snd h
          exact Or.inr ⟨hidx, by omega, by rw [hs]⟩
        | none =>
          rw [h2] at h
          exact absurd h (by simp)

/-- The clean-candidate facts a successful `findMU` lookup yields for the
dotted name it was asked about, packaged by the package/file distinction. -/
theorem findMU_UC {env : Env} (hcl : CleanEnv env) {pre : List String} {nm : String}
    {info : MuInfo} (hf : findMU env pre nm = some info) :
    (info.pkg_dir = true →
      UC env (["ansible", "module_utils"] ++ (pre ++ [nm]) ++ ["__init__"])) ∧
    (info.pkg_dir = false → UC env (["ansible", "module_utils"] ++ (pre ++ [nm]))) := by
  rcases findMU_inv hf with ⟨hpd, e, he, hpath⟩ | ⟨hpd, e, he, hpath⟩
  · have hpre : pre ++ [nm] <+: e.path := by
      refine ⟨["__init__"], ?_⟩
      rw [hpath, List.append_assoc]
      rfl
    exact ⟨fun _ => (UC_core hcl he hpre).2, fun hc => absurd hpd (by rw [hc]; simp)⟩
  · have hpre : pre ++ [nm] <+: e.path := by rw [hpath]
    exact ⟨fun hc => absurd hpd (by rw [hc]; simp), fun _ => (UC_core hcl he hpre).1⟩

theorem collAncestorStep_P {env : Env} {st : NormSt} {acc : List String}
    (hUC : UC env (acc ++ ["__init__"])) (h : NormP env st) :
    NormP env (collAncestorStep st acc) := by
  unfold collAncestorStep
  dsimp only
  split
  · exact h
  · exact normP_insert h hUC _

theorem foldl_collAncestorStep_P {env : Env} (l : List (List String)) :
    ∀ (st : NormSt), (∀ a ∈ l, UC env (a ++ ["__init__"])) → NormP env st →
      NormP env (l.foldl collAncestorStep st) := by
  induction l with
  | nil => intro st _ h; exact h
  | cons a rest ih =>
    intro st hUC h
    exact ih _ (fun b hb => hUC b (List.mem_cons_of_mem _ hb))
      (collAncestorStep_P (hUC a (List.mem_cons_self _ _)) h)

theorem collRegister_P {env : Env} (hcl : CleanEnv env) {st : NormSt}
    {pyName0 : List String} {idx : Nat} {src : Src}
    (hct : collTryIdx env pyName0 = some (idx, src)) (h : NormP env st) :
    NormP env (collRegister st pyName0 idx src) := by
  obtain ⟨hlen, hdisj⟩ := collTryIdx_inv hct
  have key : ∃ e ∈ env.coll,
      (if idx = 2 then pyName0.dropLast else pyName0) = e.path ∧
      (if idx = 2 then pyName0.dropLast else pyName0) ≠ [] := by
    rcases hdisj with ⟨hidx, hfind⟩ | ⟨hidx, hlen2, hfind⟩
    · obtain ⟨e, he, hpath⟩ := findColl_inv hfind
      subst hidx
      rw [if_neg (by decide)]
      have hne : pyName0 ≠ [] := by
        intro hnil
        rw [hnil] at hlen
        simp at hlen
      exact ⟨e, he, by rw [hpath, dropLast_append_lastSeg hne], hne⟩
    · obtain ⟨e, he, hpath⟩ := findColl_inv hfind
      subst hidx
      rw [if_pos rfl]
      have hne : pyName0.dropLast ≠ [] := by
        intro hnil
        have := congrArg List.length hnil
        rw [List.length_dropLast] at this
        simp at this
        omega
      exact ⟨e, he, by rw [hpath, dropLast_append_lastSeg hne], hne⟩
  obtain ⟨e, he, hpath, hne⟩ := key
  have hpre : (if idx = 2 then pyName0.dropLast else pyName0) <+: e.path := by
    rw [hpath]
  unfold collRegister
  dsimp only
  refine foldl_collAncestorStep_P _ _ ?_ ?_
  · intro a ha
    obtain ⟨i, _, rfl⟩ := List.mem_map.mp ha
    exact (UC_coll hcl he ((List.take_prefix _ _).trans hpre)).2
  · exact normP_insert h ((UC_coll hcl he hpre).1 hne) _

theorem basicHack_P {env : Env} (hcl : CleanEnv env) {nms : List (List String)}
    {st st' : NormSt} (h : NormP env st)
    (hb : basicHack env nms st = Except.ok st') : NormP env st' := by
  unfold basicHack at hb
  split at hb
  · injection hb with hb
    rw [← hb]
    exact h
  · cases hf : findMU env [] "basic" with
    | none => rw [hf] at hb; exact absurd hb (by simp)
    | some info =>
      rw [hf] at hb
      injection hb with hb
      rw [← hb]
      refine normP_insert h ?_ _
      rcases findMU_inv hf with ⟨_, e, he, hpath⟩ | ⟨_, e, he, hpath⟩
      · have hpre : ([] : List String) ++ ["basic"] <+: e.path := by
          refine ⟨["__init__"], ?_⟩
          rw [hpath]
          rfl
        exact (UC_core hcl he hpre).1
      · have hpre : ([] : List String) ++ ["basic"] <+: e.path := by rw [hpath]
        exact (UC_core hcl he hpre).1

/-- One normalization-loop iteration preserves the phase invariant. -/
theorem normOne_P {env : Env} (hcl : CleanEnv env) {name : String}
    {nms : List (List String)} {st st' : NormSt} {pyName : List String}
    (h : NormP env st) (hn : normOne env name nms st pyName = Except.ok st') :
    NormP env st' := by
  unfold normOne at hn
  split at hn
  · cases hf : findMU env [] "six" with
    | none => rw [hf] at hn; exact absurd hn (by simp)
    | some info =>
      rw [hf] at hn
      refine coreRegister_P hcl ?_ ?_ ?_ h hn
      · exact fun hpd => (findMU_UC hcl hf).1 hpd
      · exact fun hpd => (findMU_UC hcl hf).2 hpd
      · rfl
  · split at hn
    · cases hf : findMU env ["six"] "_six" with
      | none => rw [hf] at hn; exact absurd hn (by simp)
      | some info =>
        rw [hf] at hn
        refine coreRegister_P hcl ?_ ?_ ?_ h hn
        · exact fun hpd => (findMU_UC hcl hf).1 hpd
        · exact fun hpd => (findMU_UC hcl hf).2 hpd
        · rfl
    · split at hn
      · cases hct : collTryIdx env pyName with
        | none => rw [hct] at hn; exact absurd hn (by simp)
        | some p =>
          rw [hct] at hn
          injection hn with hn
          rw [← hn]
          exact collRegister_P hcl hct h
      · split at hn
        · rename_i htk
          cases hmt : muTryIdx env (pyName.drop 2) with
          | none => rw [hmt] at hn; exact absurd hn (by simp)
          | some p =>
            rw [hmt] at hn
            obtain ⟨idx, info⟩ := p
            obtain ⟨hlen1, hdisj⟩ := muTryIdx_inv hmt
            have hlen : 2 ≤ pyName.length := by
              have h2 := congrArg List.length htk
              rw [List.length_take] at h2
              simp only [List.length_cons, List.length_nil] at h2
              omega
            have hrepr : pyName = ["ansible", "module_utils"] ++ pyName.drop 2 := by
              rw [← htk]
              exact (List.take_append_drop 2 pyName).symm
            have hdnil : pyName.drop 2 ≠ [] := by
              intro hnil
              have := congrArg List.length hnil
              rw [List.length_drop] at this
              simp only [List.length_nil] at this
              rw [List.length_drop] at hlen1
              omega
            refine coreRegister_P hcl ?_ ?_ ?_ h hn
            · intro hpd
              rcases hdisj with ⟨hidx, hfind⟩ | ⟨hidx, hlen2, hfind⟩
              · subst hidx
                rw [if_neg (by decide)]
                have hW := (findMU_UC hcl hfind).1 hpd
                rw [dropLast_append_lastSeg hdnil] at hW
                rw [hrepr, List.append_assoc]
                exact hW
              · subst hidx
                rw [if_pos rfl]
                have hdnil2 : (pyName.drop 2).dropLast ≠ [] := by
                  intro hnil
                  have := congrArg List.length hnil
                  rw [List.length_dropLast, List.length_drop] at this
                  simp only [List.length_nil] at this
                  rw [List.length_drop] at hlen2
                  omega
                have hW := (findMU_UC hcl hfind).1 hpd
                rw [dropLast_append_lastSeg hdnil2] at hW
                have hdl : pyName.dropLast =
                    ["ansible", "module_utils"] ++ (pyName.drop 2).dropLast := by
                  conv_lhs => rw [hrepr]
                  exact List.dropLast_append_of_ne_nil _ hdnil
                rw [hdl, List.append_assoc]
                exact hW
            · intro hpd
              rcases hdisj with ⟨hidx, hfind⟩ | ⟨hidx, hlen2, hfind⟩
              · subst hidx
                rw [if_neg (by decide)]
                have hW := (findMU_UC hcl hfind).2 hpd
                rw [dropLast_append_lastSeg hdnil] at hW
                rw [hrepr]
                exact hW
              · subst hidx
                rw [if_pos rfl]
                have hdnil2 : (pyName.drop 2).dropLast ≠ [] := by
                  intro hnil
                  have := congrArg List.length hnil
                  rw [List.length_dropLast, List.length_drop] at this
                  simp only [List.length_nil] at this
                  rw [List.length_drop] at hlen2
                  omega
                have hW := (findMU_UC hcl hfind).2 hpd
                rw [dropLast_append_lastSeg hdnil2] at hW
                have hdl : pyName.dropLast =
                    ["ansible", "module_utils"] ++ (pyName.drop 2).dropLast := by
                  conv_lhs => rw [hrepr]
                  exact List.dropLast_append_of_ne_nil _ hdnil
                rw [hdl]
                exact hW
            · rcases hdisj with ⟨hidx, _⟩ | ⟨hidx, hlen2, _⟩
              · subst hidx
                rw [if_neg (by decide)]
                exact htk
              · subst hidx
                rw [if_pos rfl, List.dropLast_eq_take, List.take_take]
                rw [List.length_drop] at hlen2
                have hmin : min 2 (pyName.length - 1) = 2 := by omega
                rw [hmin]
                exact htk
        · injection hn with hn
          rw [← hn]
          exact h

theorem foldE_ne_err {α σ : Type} (f : σ → α → Except RFErr σ) (E : RFErr)
    (hf : ∀ st a, f st a ≠ Except.error E) :
    ∀ (l : List α) (st : σ), foldE f st l ≠ Except.error E := by
  intro l
  induction l with
  | nil => intro st h; exact absurd h (by simp [foldE])
  | cons a rest ih =>
    intro st h
    unfold foldE at h
    cases hf1 : f st a with
    | error e =>
      rw [hf1] at h
      injection h with h
      exact hf st a (by rw [hf1, h])
    | ok st' =>
      rw [hf1] at h
      exact ih st' h

theorem coreAncestorStep_ne_fuelOut (env : Env) (nms : List (List String))
    (st : NormSt) (pk : List String) :
    coreAncestorStep env nms st pk ≠ Except.error RFErr.fuelOut := by
  unfold coreAncestorStep
  split
  · simp
  · dsimp only
    split
    · simp
    · split
      · simp
      · simp

theorem coreRegister_ne_fuelOut (env : Env) (name : String) (nms : List (List String))
    (st : NormSt) (pyName0 : List String) (idx : Nat) (info : MuInfo) :
    coreRegister env name nms st pyName0 idx info ≠ Except.error RFErr.fuelOut := by
  unfold coreRegister
  split
  · simp
  · dsimp only
    split <;> split
    · simp
    · exact foldE_ne_err _ _ (fun s a => coreAncestorStep_ne_fuelOut env nms s a) _ _
    · simp
    · exact foldE_ne_err _ _ (fun s a => coreAncestorStep_ne_fuelOut env nms s a) _ _

theorem normOne_ne_fuelOut (env : Env) (name : String) (nms : List (List String))
    (st : NormSt) (p : List String) :
    normOne env name nms st p ≠ Except.error RFErr.fuelOut := by
  unfold normOne
  split
  · split
    · simp
    · exact coreRegister_ne_fuelOut env name nms st _ 0 _
  · split
    · split
      · simp
      · exact coreRegister_ne_fuelOut env name nms st _ 0 _
    · split
      · split
        · simp
        · simp
      · split
        · split
          · simp
          · exact coreRegister_ne_fuelOut env name nms st _ _ _
        · simp

theorem basicHack_ne_fuelOut (env : Env) (nms : List (List String)) (st : NormSt) :
    basicHack env nms st ≠ Except.error RFErr.fuelOut := by
  unfold basicHack
  split
  · simp
  · split
    · simp
    · simp

theorem writeOne_ne_fuelOut (cache : List (List String × Src × String))
    (zf : List (String × Src)) (p : List String) :
    writeOne cache zf p ≠ Except.error RFErr.fuelOut := by
  unfold writeOne
  split
  · simp
  · simp

/-- The invariant of the zip phase: the archive's entry paths are
duplicate-free and every one of them is the path of a processed clean
candidate name. -/
def ZInv (_env : Env) (st : RFState) : Prop :=
  (st.zf.map Prod.fst).Nodup ∧
  ∀ p ∈ st.zf.map Prod.fst, ∃ n, n ∈ st.names ∧ cleanName n ∧ p = muPath n

theorem rfMeasure_mono {env : Env} {nms nms' : List (List String)}
    (h : ∀ n ∈ nms, n ∈ nms') : rfMeasure env nms' ≤ rfMeasure env nms := by
  unfold rfMeasure
  refine filter_length_le_of_imp _ _ ?_ (uNames env)
  intro a ha
  simp only [decide_eq_true_eq] at ha ⊢
  intro hmem
  exact ha (h a hmem)

theorem rfMeasure_lt {env : Env} {nms nms' : List (List String)} {u : List String}
    (hmem : u ∈ uNames env) (hnot : ¬ u ∈ nms)
    (hsub : ∀ n ∈ nms, n ∈ nms') (hu : u ∈ nms') :
    rfMeasure env nms' < rfMeasure env nms := by
  unfold rfMeasure
  refine filter_length_lt_of_imp _ _ ?_ u (uNames env) hmem ?_ ?_
  · intro a ha
    simp only [decide_eq_true_eq] at ha ⊢
    intro hmem2
    exact ha (hsub a hmem2)
  · simp only [decide_eq_true_eq]
    exact hnot
  · simp [hu]

theorem zinv_cache_irrel {env : Env} {st : RFState} (h : ZInv env st)
    (c : List (List String × Src × String)) : ZInv env { st with cache := c } :=
  h

/-- The recursion loop of `recursive_finder` (lines 883-888) preserves the
zip invariant and never runs out of fuel, given that one more level of
`recursive_finder` behaves well below the `fuel` bound. -/
theorem recFinderLoop_master {env : Env} {fuel : Nat}
    (hgood : ∀ (name fqn : String) (data : Src) (st : RFState),
      ZInv env st → rfMeasure env st.names < fuel →
      recursiveFinder env fuel name fqn data st ≠ Except.error RFErr.fuelOut ∧
      ∀ st', recursiveFinder env fuel name fqn data st = Except.ok st' →
        ZInv env st' ∧
        ∀ n ∈ st'.names, n ∈ st.names ∨ muPath n ∈ st'.zf.map Prod.fst) :
    ∀ (l : List (List String)) (st : RFState), ZInv env st →
      (l ≠ [] → rfMeasure env st.names < fuel) →
      recFinderLoop (fun d nm fq s => recursiveFinder env fuel nm fq d s) st l ≠
        Except.error RFErr.fuelOut ∧
      ∀ st', recFinderLoop (fun d nm fq s => recursiveFinder env fuel nm fq d s) st l =
        Except.ok st' →
        ZInv env st' ∧
        ∀ n ∈ st'.names, n ∈ st.names ∨ muPath n ∈ st'.zf.map Prod.fst := by
  intro l
  induction l with
  | nil =>
    intro st hZ _
    refine ⟨by simp [recFinderLoop], ?_⟩
    intro st' h
    injection h with h
    rw [← h]
    exact ⟨hZ, fun n hn => Or.inl hn⟩
  | cons a rest ih =>
    intro st hZ hne
    have hm : rfMeasure env st.names < fuel := hne (by simp)
    have key : ∀ r,
        recFinderLoop (fun d nm fq s => recursiveFinder env fuel nm fq d s) st (a :: rest) = r →
        r ≠ Except.error RFErr.fuelOut ∧
        ∀ st', r = Except.ok st' →
          ZInv env st' ∧
          ∀ n ∈ st'.names, n ∈ st.names ∨ muPath n ∈ st'.zf.map Prod.fst := by
      intro r hr
      unfold recFinderLoop at hr
      cases hget : dictGet st.cache a with
      | none =>
        rw [hget] at hr
        rw [← hr]
        exact ⟨by simp, fun st' h => absurd h (by simp)⟩
      | some v =>
        rw [hget] at hr
        obtain ⟨src, pth⟩ := v
        dsimp only at hr
        cases hrun : recursiveFinder env fuel (lastSeg a) (pyJoinDot a) src st with
        | error e =>
          rw [hrun] at hr
          rw [← hr]
          refine ⟨?_, fun st' h => absurd h (by simp)⟩
          intro hc
          injection hc with hc
          exact (hgood _ _ _ _ hZ hm).1 (by rw [hrun, hc])
        | ok s1 =>
          rw [hrun] at hr
          dsimp only at hr
          have hrec := (hgood _ _ _ _ hZ hm).2 s1 hrun
          have hext1 := recursiveFinder_ext env fuel _ _ _ _ _ hrun
          have hZ1 : ZInv env { s1 with cache := dictErase s1.cache a } :=
            zinv_cache_irrel hrec.1 _
          have hm1 : rest ≠ [] →
              rfMeasure env ({ s1 with cache := dictErase s1.cache a } : RFState).names <
                fuel :=
            fun _ => lt_of_le_of_lt (rfMeasure_mono hext1.1) hm
          have hrest := ih { s1 with cache := dictErase s1.cache a } hZ1 hm1
          refine ⟨by rw [← hr]; exact hrest.1, ?_⟩
          intro st' h
          rw [h] at hr
          obtain ⟨hZ', h3⟩ := hrest.2 st' hr
          refine ⟨hZ', ?_⟩
          intro n hn
          rcases h3 n hn with hn1 | hp
          · rcases hrec.2 n hn1 with hn2 | hp2
            · exact Or.inl hn2
            · right
              have hext2 := recFinderLoop_ext _
                (fun d nm fq s s' hh => recursiveFinder_ext env fuel nm fq d s s' hh)
                rest _ _ hr
              obtain ⟨t, ht⟩ := hext2.2
              rw [ht, List.map_append]
              exact List.mem_append_left _ hp2
          · exact Or.inr hp
    exact key _ rfl

/-- The master induction for `recursive_finder`: under a clean environment
and the zip invariant, with fuel exceeding the number of unprocessed
candidate names, the computation never exhausts its fuel (each recursion
level strictly shrinks the unprocessed set, since a name in
`py_module_names` is never rescanned), and on success the zip invariant
holds again and every newly processed name was written into the zip. -/
theorem rf_master (env : Env) (hcl : CleanEnv env) :
    ∀ (fuel : Nat) (name fqn : String) (data : Src) (st : RFState),
      ZInv env st → rfMeasure env st.names < fuel →
      recursiveFinder env fuel name fqn data st ≠ Except.error RFErr.fuelOut ∧
      ∀ st', recursiveFinder env fuel name fqn data st = Except.ok st' →
        ZInv env st' ∧
        ∀ n ∈ st'.names, n ∈ st.names ∨ muPath n ∈ st'.zf.map Prod.fst := by
  intro fuel
  induction fuel with
  | zero =>
    intro name fqn data st hZ hm
    exact absurd hm (by omega)
  | succ f ihf =>
    intro name fqn data st hZ hm
    have key : ∀ r, recursiveFinder env (f + 1) name fqn data st = r →
        r ≠ Except.error RFErr.fuelOut ∧
        ∀ st', r = Except.ok st' →
          ZInv env st' ∧
          ∀ n ∈ st'.names, n ∈ st.names ∨ muPath n ∈ st'.zf.map Prod.fst := by
      intro r hr
      rw [recursiveFinder] at hr
      cases hscan : moduleDepFinderRun fqn [] data with
      | error e =>
        rw [hscan] at hr
        rw [← hr]
        exact ⟨by simp, fun st' h => absurd h (by simp)⟩
      | ok imports =>
        rw [hscan] at hr
        dsimp only at hr
        cases hnorm : foldE (normOne env name st.names) ⟨st.cache, []⟩
            (imports.filter (fun m => decide (¬ m ∈ st.names))) with
        | error e =>
          rw [hnorm] at hr
          rw [← hr]
          refine ⟨?_, fun st' h => absurd h (by simp)⟩
          intro hc
          injection hc with hc
          rw [hc] at hnorm
          exact foldE_ne_err _ _
            (fun s a => normOne_ne_fuelOut env name st.names s a) _ _ hnorm
        | ok ns0 =>
          rw [hnorm] at hr
          dsimp only at hr
          cases hbasic : basicHack env st.names ns0 with
          | error e =>
            rw [hbasic] at hr
            rw [← hr]
            refine ⟨?_, fun st' h => absurd h (by simp)⟩
            intro hc
            injection hc with hc
            rw [hc] at hbasic
            exact basicHack_ne_fuelOut env st.names ns0 hbasic
          | ok ns =>
            rw [hbasic] at hr
            dsimp only at hr
            have hN0 : NormP env (⟨st.cache, []⟩ : NormSt) := ⟨List.nodup_nil, by simp⟩
            have hNs0 : NormP env ns0 :=
              foldE_inv _ (NormP env) _
                (fun s a s' _ hP hstep => normOne_P hcl hP hstep) _ _ hN0 hnorm
            have hNs : NormP env ns := basicHack_P hcl hNs0 hbasic
            cases hwrite : foldE (writeOne ns.cache) st.zf
                (ns.normalized.filter (fun m => decide (¬ m ∈ st.names))) with
            | error e =>
              rw [hwrite] at hr
              rw [← hr]
              refine ⟨?_, fun st' h => absurd h (by simp)⟩
              intro hc
              injection hc with hc
              rw [hc] at hwrite
              exact foldE_ne_err _ _ (fun zf a => writeOne_ne_fuelOut ns.cache zf a)
                _ _ hwrite
            | ok zf' =>
              rw [hwrite] at hr
              dsimp only at hr
              obtain ⟨t, ht, hmap⟩ := foldE_writeOne_ext ns.cache _ _ _ hwrite
              have hunpN : (ns.normalized.filter
                  (fun m => decide (¬ m ∈ st.names))).Nodup := hNs.1.filter _
              have hunpUC : ∀ n ∈ ns.normalized.filter
                  (fun m => decide (¬ m ∈ st.names)), UC env n :=
                fun n hn => hNs.2 n (List.mem_of_mem_filter hn)
              have hunpNot : ∀ n ∈ ns.normalized.filter
                  (fun m => decide (¬ m ∈ st.names)), ¬ n ∈ st.names := by
                intro n hn
                have := List.of_mem_filter hn
                simpa using this
              have hZ1 : ZInv env
                  ⟨st.names ++ ns.normalized.filter (fun m => decide (¬ m ∈ st.names)),
                    ns.cache, zf'⟩ := by
                constructor
                · rw [ht, List.map_append, hmap, List.nodup_append]
                  refine ⟨hZ.1, ?_, ?_⟩
                  · refine List.Nodup.map_on ?_ hunpN
                    intro x hx y hy hxy
                    exact muPath_inj (hunpUC x hx).2 (hunpUC y hy).2 hxy
                  · intro p hp1 hp2
                    obtain ⟨n, hn, hnUC, rfl⟩ := hZ.2 p hp1
                    obtain ⟨m, hm2, hmp⟩ := List.mem_map.mp hp2
                    have : m = n := muPath_inj (hunpUC m hm2).2 hnUC hmp
                    rw [this] at hm2
                    exact hunpNot n hm2 hn
                · intro p hp
                  rw [ht, List.map_append] at hp
                  rcases List.mem_append.mp hp with hp | hp
                  · obtain ⟨n, hn, hnUC, rfl⟩ := hZ.2 p hp
                    exact ⟨n, List.mem_append_left _ hn, hnUC, rfl⟩
                  · rw [hmap] at hp
                    obtain ⟨m, hm2, rfl⟩ := List.mem_map.mp hp
                    exact ⟨m, List.mem_append_right _ hm2, (hunpUC m hm2).2, rfl⟩
              have hmeas : ns.normalized.filter (fun m => decide (¬ m ∈ st.names)) ≠ [] →
                  rfMeasure env
                    (st.names ++ ns.normalized.filter (fun m => decide (¬ m ∈ st.names))) <
                    f := by
                intro hne
                obtain ⟨u, hu⟩ := List.exists_mem_of_ne_nil _ hne
                have hlt : rfMeasure env
                    (st.names ++ ns.normalized.filter (fun m => decide (¬ m ∈ st.names))) <
                    rfMeasure env st.names :=
                  rfMeasure_lt (hunpUC u hu).1 (hunpNot u hu)
                    (fun n hn => List.mem_append_left _ hn) (List.mem_append_right _ hu)
                omega
              have hloop := recFinderLoop_master ihf
                (ns.normalized.filter (fun m => decide (¬ m ∈ st.names)))
                ⟨st.names ++ ns.normalized.filter (fun m => decide (¬ m ∈ st.names)),
                  ns.cache, zf'⟩ hZ1 hmeas
              refine ⟨?_, ?_⟩
              · intro hc
                rw [hc] at hr
                exact hloop.1 hr
              · intro st' h
                rw [h] at hr
                obtain ⟨hZ', h3⟩ := hloop.2 st' hr
                refine ⟨hZ', ?_⟩
                intro n hn
                rcases h3 n hn with hn1 | hp
                · rcases List.mem_append.mp hn1 with hn2 | hn2
                  · exact Or.inl hn2
                  · right
                    have hext := recFinderLoop_ext _
                      (fun d nm fq s s' hh => recursiveFinder_ext env f nm fq d s s' hh)
                      _ _ _ hr
                    obtain ⟨t2, ht2⟩ := hext.2
                    rw [ht2, List.map_append]
                    apply List.mem_append_left
                    rw [ht, List.map_append, hmap]
                    exact List.mem_append_right _ (List.mem_map_of_mem _ hn2)
                · exact Or.inr hp
    exact key _ rfl

instance (env : Env) : Decidable (CleanEnv env) := by
  unfold CleanEnv
  infer_instance

/-- C8: for every dependency graph over a clean environment, including
cyclic ones, `recursive_finder` terminates — the fuel bound derived from the
finite set of candidate names is never exhausted, because a name already in
`py_module_names` is never rescanned and each recursion level strictly
shrinks the unprocessed candidate set — and each resolved module's source
is written into the zip archive exactly once: the archive's entry paths are
duplicate-free and every newly processed name's path appears among them. -/
theorem recursive_finder_cycle_safe (env : Env) (name fqn : String) (data : Src)
    (st : RFState) (hcl : CleanEnv env) (hZ : ZInv env st) :
    recursiveFinder env (rfFuel env st.names) name fqn data st ≠
      Except.error RFErr.fuelOut ∧
    ∀ st', recursiveFinder env (rfFuel env st.names) name fqn data st = Except.ok st' →
      (st'.zf.map Prod.fst).Nodup ∧
      ∀ n ∈ st'.names, ¬ n ∈ st.names → muPath n ∈ st'.zf.map Prod.fst := by
  have h := rf_master env hcl (rfFuel env st.names) name fqn data st hZ
    (by unfold rfFuel; omega)
  refine ⟨h.1, ?_⟩
  intro st' hok
  obtain ⟨hZ', h3⟩ := h.2 st' hok
  refine ⟨hZ'.1, ?_⟩
  intro n hn hnot
  rcases h3 n hn with h4 | h4
  · exact absurd h4 hnot
  · exact h4

/-- A cyclic environment: helper `a` imports helper `b` and `b` imports `a`
back; `basic` exists for the unconditional inclusion. -/
def c8Env : Env :=
  { mu := [⟨["a"], true, [Stmt.imp ["ansible.module_utils.b"]]⟩,
           ⟨["b"], true, [Stmt.imp ["ansible.module_utils.a"]]⟩,
           ⟨["basic"], true, []⟩],
    coll := [] }

/-- The seeded initial state of a build (the two namespace stubs already
written, as `_find_module_utils` does before running the finder). -/
def c8St0 : RFState :=
  { names := [["ansible", "__init__"], ["ansible", "module_utils", "__init__"]],
    cache := seedCache,
    zf := [("ansible/__init__.py", [Stmt.impFrom 0 (some "pkgutil") ["extend_path"]]),
           ("ansible/module_utils/__init__.py",
             [Stmt.impFrom 0 (some "pkgutil") ["extend_path"]])] }

theorem recursive_finder_cycle_safe_witness :
    CleanEnv c8Env ∧ ZInv c8Env c8St0 ∧
    (recursiveFinder c8Env (rfFuel c8Env c8St0.names) "foo" "ansible.modules.foo"
        [Stmt.imp ["ansible.module_utils.a"]] c8St0 ≠
      Except.error RFErr.fuelOut ∧
    ∀ st', recursiveFinder c8Env (rfFuel c8Env c8St0.names) "foo" "ansible.modules.foo"
        [Stmt.imp ["ansible.module_utils.a"]] c8St0 = Except.ok st' →
      (st'.zf.map Prod.fst).Nodup ∧
      ∀ n ∈ st'.names, ¬ n ∈ c8St0.names → muPath n ∈ st'.zf.map Prod.fst) := by
  have hZ : ZInv c8Env c8St0 := by
    refine ⟨by decide, ?_⟩
    intro p hp
    have hp2 : p = "ansible/__init__.py" ∨ p = "ansible/module_utils/__init__.py" := by
      simpa [c8St0] using hp
    rcases hp2 with rfl | rfl
    · exact ⟨["ansible", "__init__"], by decide, by decide, by decide⟩
    · exact ⟨["ansible", "module_utils", "__init__"], by decide, by decide, by decide⟩
  exact ⟨by decide, hZ,
    recursive_finder_cycle_safe c8Env "foo" "ansible.modules.foo"
      [Stmt.imp ["ansible.module_utils.a"]] c8St0 (by decide) hZ⟩

/-- C9 (amended): in every produced archive over a clean environment, the
entries are, in order: the dependency closure written by `recursive_finder`
(each entry path the `/`-joined segments of a clean module name plus
`.py`, independent of the host OS), then the target module's own file at
the path derived from its fully-qualified dotted identity, then the
ancestor-package initializer entries synthesized by `_add_module_to_zip`,
each at a `/`-joined ancestor prefix path with the literal leaf name
`__init__.py`.  The target's file therefore follows its whole dependency
closure but is not in general the final entry. -/
theorem archive_layout (env : Env) (hcl : CleanEnv env)
    (module_name fqn : String) (data : Src) (zip : List (String × Src))
    (h : buildModuleZip env module_name fqn data = Except.ok zip) :
    ∃ stFin inits,
      recursiveFinder env (rfFuel env (seedCache.map (fun e => e.1))) module_name fqn
          data ⟨seedCache.map (fun e => e.1), seedCache,
            seedCache.map (fun e => (e.2.2, e.2.1))⟩ = Except.ok stFin ∧
      zip = stFin.zf ++ [(pyPathJoin (pySplitDot fqn) ++ ".py", data)] ++ inits ∧
      (∀ p ∈ stFin.zf.map Prod.fst, ∃ n, cleanName n ∧ p = muPath n) ∧
      (∀ e ∈ inits, ∃ k, 1 ≤ k ∧
        e.1 = pyPathJoin ((pySplitDot fqn).take k) ++ "/__init__.py" ∧
        e.2 = ([] : Src)) := by
  unfold buildModuleZip at h
  dsimp only at h
  cases hrf : recursiveFinder env (rfFuel env (seedCache.map (fun e => e.1))) module_name
      fqn data ⟨seedCache.map (fun e => e.1), seedCache,
        seedCache.map (fun e => (e.2.2, e.2.1))⟩ with
  | error e =>
    rw [hrf] at h
    exact absurd h (by simp)
  | ok stFin =>
    rw [hrf] at h
    injection h with h
    have hZ0 : ZInv env ⟨seedCache.map (fun e => e.1), seedCache,
        seedCache.map (fun e => (e.2.2, e.2.1))⟩ := by
      refine ⟨by decide, ?_⟩
      intro p hp
      have hp2 : p = "ansible/__init__.py" ∨ p = "ansible/module_utils/__init__.py" := by
        simpa [seedCache] using hp
      rcases hp2 with rfl | rfl
      · exact ⟨["ansible", "__init__"], by decide, by decide, by decide⟩
      · exact ⟨["ansible", "module_utils", "__init__"], by decide, by decide, by decide⟩
    have hZfin := ((rf_master env hcl (rfFuel env (seedCache.map (fun e => e.1)))
      module_name fqn data _ hZ0 (by unfold rfFuel; dsimp only; omega)).2 stFin hrf).1
    unfold addModuleToZip at h
    dsimp only at h
    refine ⟨stFin, _, rfl, h.symm, ?_, ?_⟩
    · intro p hp
      obtain ⟨n, _, hcn, hpn⟩ := hZfin.2 p hp
      exact ⟨n, hcn, hpn⟩
    · intro e he
      obtain ⟨i, hi, hfe⟩ := List.mem_filterMap.mp he
      split at hfe
      · split at hfe
        · exact absurd hfe (by simp)
        · injection hfe with hfe
          refine ⟨2 + i, by omega, by rw [← hfe], by rw [← hfe]⟩
      · split at hfe
        · exact absurd hfe (by simp)
        · injection hfe with hfe
          refine ⟨1 + i, by omega, by rw [← hfe], by rw [← hfe]⟩

theorem archive_layout_witness :
    CleanEnv basicOnlyEnv ∧
    buildModuleZip basicOnlyEnv "foo" "ansible.modules.foo" [] =
      Except.ok [("ansible/__init__.py", [Stmt.impFrom 0 (some "pkgutil") ["extend_path"]]),
        ("ansible/module_utils/__init__.py",
          [Stmt.impFrom 0 (some "pkgutil") ["extend_path"]]),
        ("ansible/module_utils/basic.py", []),
        ("ansible/modules/foo.py", []),
        ("ansible/modules/__init__.py", [])] ∧
    ∃ stFin inits,
      recursiveFinder basicOnlyEnv (rfFuel basicOnlyEnv (seedCache.map (fun e => e.1)))
          "foo" "ansible.modules.foo" [] ⟨seedCache.map (fun e => e.1), seedCache,
            seedCache.map (fun e => (e.2.2, e.2.1))⟩ = Except.ok stFin ∧
      [("ansible/__init__.py", [Stmt.impFrom 0 (some "pkgutil") ["extend_path"]]),
        ("ansible/module_utils/__init__.py",
          [Stmt.impFrom 0 (some "pkgutil") ["extend_path"]]),
        ("ansible/module_utils/basic.py", []),
        ("ansible/modules/foo.py", []),
        ("ansible/modules/__init__.py", [])] =
        stFin.zf ++ [(pyPathJoin (pySplitDot "ansible.modules.foo") ++ ".py", ([] : Src))]
          ++ inits ∧
      (∀ p ∈ stFin.zf.map Prod.fst, ∃ n, cleanName n ∧ p = muPath n) ∧
      (∀ e ∈ inits, ∃ k, 1 ≤ k ∧
        e.1 = pyPathJoin ((pySplitDot "ansible.modules.foo").take k) ++ "/__init__.py" ∧
        e.2 = ([] : Src)) :=
  ⟨by decide, by rfl,
    archive_layout basicOnlyEnv (by decide) "foo" "ansible.modules.foo" []
      [("ansible/__init__.py", [Stmt.impFrom 0 (some "pkgutil") ["extend_path"]]),
        ("ansible/module_utils/__init__.py",
          [Stmt.impFrom 0 (some "pkgutil") ["extend_path"]]),
        ("ansible/module_utils/basic.py", []),
        ("ansible/modules/foo.py", []),
        ("ansible/modules/__init__.py", [])] (by rfl)⟩

end ModuleCommon
